import Mathlib

/-!
Verification development for the Sheetpilot cell-grid action engine
(`server/src/services/excelService.js`, `server/src/services/aiService.js`).

The JavaScript code is shallowly embedded: sheets are dense 1-based lists of
rows of cells, JavaScript numbers are modelled as rationals, and the JS
coercion primitives (`toString`, `Number`, `parseFloat`, abstract equality
`==`) are modelled as explicit total functions over the closed tagged union
of cell values that ExcelJS produces (null, number, string, Date,
formula object, rich-text object).

Modelling notes, stated once here:
* A JS `Date` cell value is abstracted as a pair of its epoch-milliseconds
  number and its ISO-8601 string; `toString`/`ToPrimitive` on a date is
  abstracted to the ISO string.
* ExcelJS represents a formula cell value as the plain object
  `{formula, result?}` and a rich-text value as `{richText: [{text}, ...]}`;
  neither object carries a `text` property, and `String(object)` gives
  `"[object Object]"`.
* `Number(...)` on strings is modelled without the hexadecimal / `Infinity`
  forms; `parseFloat` is modelled with sign, decimal digits, fraction and
  exponent, which covers every value the engine itself ever produces.
* JS number-to-string printing is modelled exactly for integers and for
  terminating decimals (the only numbers the modelled pipeline produces).
-/

namespace Sheetpilot

/-- A cached formula result as ExcelJS stores it on the formula value
object: a number, a string, or JS null (absence of the field — JS
`undefined` — is `Option.none` at the use site). -/
inductive FormulaResult where
  | rnum : Rat → FormulaResult
  | rstr : String → FormulaResult
  | rnull : FormulaResult
deriving DecidableEq, Repr

/-- Tagged union of the cell values the engine consumes (spec section 3 /
ExcelJS value shapes): null, number, text, Date, formula object with an
optional cached result, rich-text object with a list of run texts. -/
inductive CellValue where
  | null : CellValue
  | num : Rat → CellValue
  | str : String → CellValue
  | date : Int → String → CellValue
  | formula : String → Option FormulaResult → CellValue
  | rich : List String → CellValue
deriving DecidableEq, Repr

/-- Embed a cached formula result back into the cell-value union (the read
path returns the cached result verbatim). -/
def FormulaResult.toCellValue : FormulaResult → CellValue
  | FormulaResult.rnum q => CellValue.num q
  | FormulaResult.rstr s => CellValue.str s
  | FormulaResult.rnull => CellValue.null

/-- A cell: a value plus the optional fill-colour annotation (argb string)
that `highlightRows` writes. -/
structure Cell where
  v : CellValue
  fill : Option String
deriving DecidableEq, Repr

/-- A sheet row, dense, index `c-1` holding column `c` (1-based). -/
abbrev SheetRow := List Cell

/-- A sheet: list of rows, index `r-1` holding row `r` (1-based). -/
abbrev Sheet := List SheetRow

def defaultCell : Cell := ⟨CellValue.null, none⟩

/-- Reading any unset position yields null (never an error). -/
def getRow (s : Sheet) (r : Nat) : SheetRow := s.getD (r - 1) []

def getCellVal (s : Sheet) (r c : Nat) : CellValue :=
  ((getRow s r).getD (c - 1) defaultCell).v

def getCellFill (s : Sheet) (r c : Nat) : Option String :=
  ((getRow s r).getD (c - 1) defaultCell).fill

def isNullV : CellValue → Bool
  | CellValue.null => true
  | _ => false

/-- A row is visited by ExcelJS `eachRow` exactly when it holds at least one
non-null cell. -/
def nonEmptyRow (row : SheetRow) : Bool := row.any (fun c => !(isNullV c.v))

/-- Pad a list to length `n` with `d` (used to create cells/rows on write,
as ExcelJS `getCell` does). -/
def padTo {α : Type} (l : List α) (n : Nat) (d : α) : List α :=
  l ++ List.replicate (n - l.length) d

/-- Set column `c` (1-based) of a row to value `v`, keeping its fill if the
cell existed, creating null cells before it if needed. -/
def setCellInRow (row : SheetRow) (c : Nat) (v : CellValue) : SheetRow :=
  (padTo row c defaultCell).set (c - 1)
    { v := v, fill := (row.getD (c - 1) defaultCell).fill }

/-- Write value `v` at (row `r`, column `c`), both 1-based, growing the sheet
as ExcelJS does. -/
def setCellVal (s : Sheet) (r c : Nat) (v : CellValue) : Sheet :=
  (padTo s r []).set (r - 1) (setCellInRow ((padTo s r []).getD (r - 1) []) c v)

/-! ### Executable primitives

The library's `String.trim`/`toLower`/`splitOn`, the order on `String`,
`List.merge`/`mergeSort` and the rational field operations do not reduce
inside the kernel (iterator/well-founded definitions, irreducibility), so
the model uses its own structurally recursive equivalents; bridge lemmas
connect the sort to `List.mergeSort` where the library lemmas are used. -/

/-- Trim ASCII/Unicode whitespace from both ends (JS `trim`). -/
def strTrim (s : String) : String :=
  String.mk (((s.data.dropWhile Char.isWhitespace).reverse.dropWhile
    Char.isWhitespace).reverse)

/-- Lower-case every character (JS `toLowerCase`). -/
def strLower (s : String) : String := String.mk (s.data.map Char.toLower)

/-- Does `pre` lead the list `l`? -/
def leadsWith : List Char → List Char → Bool
  | [], _ => true
  | _ :: _, [] => false
  | a :: as, b :: bs => a = b && leadsWith as bs

/-- JS `string.includes(sub)`. -/
def strContains (s sub : String) : Bool :=
  s.data.tails.any (fun t => leadsWith sub.data t)

/-- Fuelled splitter behind `strSplitOn`; fuel `≥ cs.length` is always
enough since every step consumes at least one character. -/
def splitOnFuel (sep : List Char) : Nat → List Char → List Char → List (List Char)
  | 0, cs, acc => [acc.reverse ++ cs]
  | fuel + 1, cs, acc =>
      match cs with
      | [] => [acc.reverse]
      | c :: rest =>
          if !sep.isEmpty && leadsWith sep cs then
            acc.reverse :: splitOnFuel sep fuel (cs.drop sep.length) []
          else splitOnFuel sep fuel rest (c :: acc)

/-- JS `string.split(sep)` for a non-empty separator: every maximal piece
between (non-overlapping, left-to-right) occurrences of `sep`. -/
def strSplitOn (s sep : String) : List String :=
  (splitOnFuel sep.data s.data.length s.data []).map String.mk

/-- Lexicographic order on code points (JS `<` on strings). -/
def listLexLt : List Char → List Char → Bool
  | [], [] => false
  | [], _ :: _ => true
  | _ :: _, [] => false
  | a :: as, b :: bs =>
      if a.toNat < b.toNat then true
      else if b.toNat < a.toNat then false
      else listLexLt as bs

def strLt (a b : String) : Bool := listLexLt a.data b.data

/-- Rational addition through `mkRat` (equal to `+`, see `addQ_eq`). -/
def addQ (a b : Rat) : Rat := mkRat (a.num * b.den + b.num * a.den) (a.den * b.den)

/-- Rational subtraction through `mkRat`. -/
def subQ (a b : Rat) : Rat := mkRat (a.num * b.den - b.num * a.den) (a.den * b.den)

/-- Rational multiplication through `mkRat`. -/
def mulQ (a b : Rat) : Rat := mkRat (a.num * b.num) (a.den * b.den)

/-- Rational negation through `mkRat`. -/
def negQ (a : Rat) : Rat := mkRat (-a.num) a.den

/-- Rational division through `mkRat` (the engine only divides by non-zero
values). -/
def divQ (a b : Rat) : Rat :=
  mkRat (a.num * b.den * Int.sign b.num) (a.den * b.num.natAbs)

/-- Structural merge of two lists, keeping the left element on ties — the
stable merge step (fuel `≥` the total length is always enough). -/
def mergeFuel {α : Type} (le : α → α → Bool) : Nat → List α → List α → List α
  | 0, xs, ys => xs ++ ys
  | _ + 1, [], ys => ys
  | _ + 1, xs, [] => xs
  | fuel + 1, x :: xs, y :: ys =>
      if le x y then x :: mergeFuel le fuel xs (y :: ys)
      else y :: mergeFuel le fuel (x :: xs) ys

/-- Structural top-down stable merge sort (fuel `≥ l.length` is always
enough); `mergeSortF_eq` identifies it with `List.mergeSort`. -/
def mergeSortF {α : Type} (le : α → α → Bool) : Nat → List α → List α
  | _, [] => []
  | _, [a] => [a]
  | 0, l => l
  | fuel + 1, a :: b :: l =>
      let n := (a :: b :: l).length
      mergeFuel le n
        (mergeSortF le fuel ((a :: b :: l).take ((n + 1) / 2)))
        (mergeSortF le fuel ((a :: b :: l).drop ((n + 1) / 2)))

/-- The model of JS `Array.prototype.sort` (ES2019+: stable; modelled as a
stable top-down merge sort).  ECMA-262 determines the output only for
consistent comparators; every theorem below that evaluates a sort either
uses a consistent comparator or states a permutation-invariant property,
where any stable (indeed any) sort model agrees with the engine. -/
def jsStableSort {α : Type} (le : α → α → Bool) (l : List α) : List α :=
  mergeSortF le l.length l

/-! ### JS coercion primitives -/

def digitsToNat (cs : List Char) : Nat :=
  cs.foldl (fun a c => a * 10 + (c.toNat - 48)) 0

/-- Parse an unsigned decimal mantissa `digits [ '.' digits ]` from the front
of a character list; fails when no digit is present. -/
def parseMantissa (cs : List Char) : Option (Rat × List Char) :=
  let ip := cs.takeWhile Char.isDigit
  let rest := cs.dropWhile Char.isDigit
  match rest with
  | '.' :: rest2 =>
      let fp := rest2.takeWhile Char.isDigit
      let rest3 := rest2.dropWhile Char.isDigit
      if ip.isEmpty && fp.isEmpty then none
      else some (addQ (mkRat (digitsToNat ip) 1)
        (mkRat (digitsToNat fp) ((10 : Nat) ^ fp.length)), rest3)
  | _ => if ip.isEmpty then none else some (mkRat (digitsToNat ip) 1, rest)

/-- Parse an optional well-formed exponent `[eE][+-]?digits`; when malformed
the exponent characters are left unconsumed (as JS `parseFloat` does). -/
def parseExponent (cs : List Char) : Option (Int × List Char) :=
  match cs with
  | e :: rest =>
      if e = 'e' || e = 'E' then
        let (sgn, rest2) : Int × List Char :=
          match rest with
          | '-' :: r => (-1, r)
          | '+' :: r => (1, r)
          | r => (1, r)
        let ds := rest2.takeWhile Char.isDigit
        if ds.isEmpty then none
        else some (sgn * (digitsToNat ds : Int), rest2.dropWhile Char.isDigit)
      else none
  | [] => none

/-- Scale a rational by a (possibly negative) power of ten. -/
def scalePow10 (m : Rat) (e : Int) : Rat :=
  if 0 ≤ e then mulQ m (mkRat (((10 : Nat) ^ e.toNat : Nat) : Int) 1)
  else mulQ m (mkRat 1 ((10 : Nat) ^ (-e).toNat))

/-- Parse a signed decimal number (mantissa and optional exponent) from the
front of a character list, returning the value and the unconsumed rest. -/
def parseSignedNumber (cs : List Char) : Option (Rat × List Char) :=
  let (neg, rest) : Bool × List Char :=
    match cs with
    | '-' :: r => (true, r)
    | '+' :: r => (false, r)
    | r => (false, r)
  match parseMantissa rest with
  | none => none
  | some (m, rest2) =>
      let m := if neg then negQ m else m
      match parseExponent rest2 with
      | some (e, rest3) => some (scalePow10 m e, rest3)
      | none => some (m, rest2)

/-- JS `parseFloat` on a string: skip leading whitespace, parse the longest
numeric prefix, ignore the rest; `none` models NaN. -/
def jsParseFloatStr (s : String) : Option Rat :=
  (parseSignedNumber (s.data.dropWhile Char.isWhitespace)).map Prod.fst

/-- JS `ToNumber` on a string (used by `Number(...)` and by `==` coercion):
trim, empty means 0, otherwise the whole string must be a number. -/
def jsToNumberStr (s : String) : Option Rat :=
  let t := strTrim s
  if t = "" then some 0
  else
    match parseSignedNumber t.data with
    | some (q, []) => some q
    | _ => none

/-- JS number printing, exact for integers and terminating decimals: the
fractional digits are the minimal ones, with no trailing zeros. -/
def ratToDecimalString (q : Rat) : String :=
  if q.den = 1 then toString q.num
  else
    match (List.range 40).find? (fun k => (mulQ q (mkRat (((10 : Nat) ^ k : Nat) : Int) 1)).den = 1) with
    | some k =>
        let m := (mulQ q (mkRat (((10 : Nat) ^ k : Nat) : Int) 1)).num
        let sgn := if m < 0 then "-" else ""
        let ds := toString m.natAbs
        let ds := if ds.length ≤ k then
            String.mk (List.replicate (k + 1 - ds.length) '0') ++ ds
          else ds
        let cs := ds.data
        sgn ++ String.mk (cs.take (cs.length - k)) ++ "." ++ String.mk (cs.drop (cs.length - k))
    | none => toString q.num ++ "/" ++ toString q.den

/-- JS `String(value)` over cell values (dates abstracted to their ISO text;
the ExcelJS formula and rich-text plain objects print as
`[object Object]`). -/
def jsToString : CellValue → String
  | CellValue.null => "null"
  | CellValue.num q => ratToDecimalString q
  | CellValue.str s => s
  | CellValue.date _ iso => iso
  | CellValue.formula _ _ => "[object Object]"
  | CellValue.rich _ => "[object Object]"

/-- JS truthiness of a cell value. -/
def jsTruthy : CellValue → Bool
  | CellValue.null => false
  | CellValue.num q => decide (q ≠ 0)
  | CellValue.str s => decide (s ≠ "")
  | _ => true

/-- JS `Number(value)` over cell values; `none` models NaN. -/
def jsNumberOf : CellValue → Option Rat
  | CellValue.null => some 0
  | CellValue.num q => some q
  | CellValue.str s => jsToNumberStr s
  | CellValue.date ms _ => some ms
  | CellValue.formula _ _ => none
  | CellValue.rich _ => none

/-- JS `parseFloat(value)`: stringify, then parse a numeric prefix. -/
def jsParseFloatOf (v : CellValue) : Option Rat := jsParseFloatStr (jsToString v)

/-- `ToPrimitive` of an object cell value (default hint), used by `==`. -/
def jsObjToPrimitive : CellValue → String
  | CellValue.date _ iso => iso
  | _ => "[object Object]"

def isObjV : CellValue → Bool
  | CellValue.date _ _ => true
  | CellValue.formula _ _ => true
  | CellValue.rich _ => true
  | _ => false

/-- JS abstract equality `==` over cell values. Two distinct objects are
never `==` (reference semantics); an object compares with a primitive
through `ToPrimitive`. -/
def jsEq : CellValue → CellValue → Bool
  | CellValue.null, CellValue.null => true
  | CellValue.null, _ => false
  | _, CellValue.null => false
  | CellValue.num a, CellValue.num b => decide (a = b)
  | CellValue.num a, CellValue.str s => decide (jsToNumberStr s = some a)
  | CellValue.str s, CellValue.num a => decide (jsToNumberStr s = some a)
  | CellValue.str a, CellValue.str b => decide (a = b)
  | CellValue.num a, o => decide (jsToNumberStr (jsObjToPrimitive o) = some a)
  | o, CellValue.num a => decide (jsToNumberStr (jsObjToPrimitive o) = some a)
  | CellValue.str s, o => decide (jsObjToPrimitive o = s)
  | o, CellValue.str s => decide (jsObjToPrimitive o = s)
  | _, _ => false

/-- JS strict equality `===` over cell values (no coercion; two distinct
objects are never strictly equal). -/
def jsStrictEq : CellValue → CellValue → Bool
  | CellValue.null, CellValue.null => true
  | CellValue.num a, CellValue.num b => decide (a = b)
  | CellValue.str a, CellValue.str b => decide (a = b)
  | _, _ => false

/-- The shared loose-match primitive (`excelService.js`): native `==`, or
both truthy and equal as trimmed lower-cased text. -/
def looseMatch (cellVal target : CellValue) : Bool :=
  jsEq cellVal target ||
    (jsTruthy cellVal && jsTruthy target &&
      decide (strLower (strTrim (jsToString cellVal)) = strLower (strTrim (jsToString target))))

/-! ### Column resolution and spreadsheet letters -/

/-- First cell of a row (1-based column index) whose value is truthy and
whose trimmed lower-cased text equals the trimmed lower-cased `name`
(`getColumnIndex`'s inner `eachCell` scan; `eachCell` skips null cells,
which are never truthy anyway). -/
def findCellIdx (row : SheetRow) (name : String) : Option Nat :=
  (row.findIdx? (fun c =>
    jsTruthy c.v && decide (strLower (strTrim (jsToString c.v)) = strLower (strTrim name)))).map (· + 1)

/-- Row-major scan of `getColumnIndex`: rows `1..scanDepth`, first match
wins; returns `(colIndex, foundAtRow)`, both 1-based. -/
def gciAux (rows : List SheetRow) (rn : Nat) (name : String) (scanDepth : Nat) :
    Option (Nat × Nat) :=
  match rows with
  | [] => none
  | row :: rest =>
      if rn > scanDepth then none
      else
        match findCellIdx row name with
        | some c => some (c, rn)
        | none => gciAux rest (rn + 1) name scanDepth

/-- `getColumnIndex(worksheet, name, scanDepth = 20)`. -/
def getColumnIndex (s : Sheet) (name : String) (scanDepth : Nat := 20) :
    Option (Nat × Nat) :=
  gciAux s 1 name scanDepth

/-- Fuelled loop behind `colLetter` (fuel `≥ col` is always enough since
the column index shrinks on every step). -/
def colLetterF : Nat → Nat → String
  | _, 0 => ""
  | 0, _ => ""
  | fuel + 1, col =>
      let temp := (col - 1) % 26
      colLetterF fuel ((col - 1) / 26) ++ String.singleton (Char.ofNat (temp + 65))

/-- `colLetter`: 1-based base-26 spreadsheet column letters (1 → A, 26 → Z,
27 → AA, ...). -/
def colLetter (col : Nat) : String := colLetterF col col

/-! ### Formula rewriting (`addColumn`)

The source compiles each header-map key verbatim into the regex replace
`template.replace(new RegExp('\\b' + key + '\\b', 'gi'), ref)`.  For a
non-empty key made solely of word characters (`[A-Za-z0-9_]`),
`\bkey\b` matches exactly the maximal word-character runs equal to the
key, case-insensitively — which is what `replacePass` computes.  A key
holding any other character is compiled into the regex as regex syntax
(`.` matches any character, an unbalanced `(` throws), which the literal
model does not capture; the self-reference theorem therefore assumes
every header-map key is a non-empty word-character string.  The model
splits the template into maximal word / non-word runs once, maps each
replacement pass over the runs and joins at the end; since every
replacement text is itself a non-empty word-character run, the runs
structure is preserved and this agrees with splitting and joining per
pass. -/

def isWordChar (c : Char) : Bool := c.isAlphanum || c = '_'

/-- Fuelled loop behind `splitRuns` (fuel `≥` the list length is always
enough since every run is non-empty). -/
def splitRunsF : Nat → List Char → List (Bool × List Char)
  | _, [] => []
  | 0, _ => []
  | fuel + 1, c :: cs =>
      let w := isWordChar c
      let run := c :: cs.takeWhile (fun d => isWordChar d = w)
      (w, run) :: splitRunsF fuel (cs.dropWhile (fun d => isWordChar d = w))

/-- Split a character list into maximal runs, each tagged with whether it is
a word-character run. -/
def splitRuns (cs : List Char) : List (Bool × List Char) := splitRunsF cs.length cs

def joinRuns (rs : List (Bool × List Char)) : String :=
  String.mk (rs.foldr (fun r acc => r.2 ++ acc) [])

/-- One replacement pass `replace(/\bkey\b/gi, ref)` over the run list
(`key` is already lower-cased, as the header-map keys are). -/
def replacePass (key ref : String) (rs : List (Bool × List Char)) :
    List (Bool × List Char) :=
  rs.map (fun r =>
    if r.1 && decide (strLower (String.mk r.2) = key) then (true, ref.data) else r)

/-- `addColumn`'s formula rewriting: one pass per header-map entry, in map
order, replacing the header name with `<colLetter><rowNumber>`. -/
def rewriteRuns (headers : List (String × Nat)) (rn : Nat)
    (rs : List (Bool × List Char)) : List (Bool × List Char) :=
  headers.foldl (fun acc h => replacePass h.1 (colLetter h.2 ++ toString rn) acc) rs

def rewriteFormula (headers : List (String × Nat)) (template : String) (rn : Nat) :
    String :=
  joinRuns (rewriteRuns headers rn (splitRuns template.data))

/-- Insert `(key, value)` into the header map with JS object-key semantics:
an existing key keeps its position but its value is overwritten. -/
def upsertHeader (m : List (String × Nat)) (key : String) (value : Nat) :
    List (String × Nat) :=
  if m.any (fun p => p.1 = key) then
    m.map (fun p => if p.1 = key then (key, value) else p)
  else m ++ [(key, value)]

/-- Header map built from row 1 (`headerRow.eachCell`): lower-cased cell
text → 1-based column index, in column order, later duplicates
overwriting earlier values in place. -/
def headersOf (row : SheetRow) : List (String × Nat) :=
  (List.range row.length).foldl (fun m i =>
    let c := row.getD i defaultCell
    if isNullV c.v then m
    else upsertHeader m (strLower (jsToString c.v)) (i + 1)) []

/-! ### The seven mutation actions -/

/-- `ADD_COLUMN`: write `columnName` into row 1 after the last header cell,
rebuild the header map (now including the new column), then write a
formula cell in the new column for every non-empty row `r > 1`. -/
def addColumn (s : Sheet) (columnName formulaTemplate : String) : Sheet :=
  let nextCol := (getRow s 1).length + 1
  let s1 := setCellVal s 1 nextCol (CellValue.str columnName)
  let headers := headersOf (getRow s1 1)
  s1.mapIdx (fun i row =>
    if i = 0 then row
    else if nonEmptyRow row then
      setCellInRow row nextCol
        (CellValue.formula (rewriteFormula headers formulaTemplate (i + 1)) none)
    else row)

def operatorsList : List String := [">=", "<=", "!=", ">", "<", "="]

/-- The comparison of `highlightRows`, with JS NaN semantics when the
threshold did not parse (`none`): every comparison is false except `!=`,
which is true. -/
def evalOp (op : String) (n : Rat) (t : Option Rat) : Bool :=
  match t with
  | none => op = "!="
  | some th =>
      if op = ">" then decide (n > th)
      else if op = "<" then decide (n < th)
      else if op = ">=" then decide (n ≥ th)
      else if op = "<=" then decide (n ≤ th)
      else if op = "=" then decide (n = th)
      else if op = "!=" then decide (n ≠ th)
      else false

/-- Split `condition` on the first operator (tried in the order
`>= <= != > < =`) that occurs as a substring, giving
`(operator, column name, threshold text)`, both sides trimmed. -/
def parseCondition (condition : String) : Option (String × String × String) :=
  (operatorsList.find? (fun op => strContains condition op)).map (fun op =>
    (op, strTrim ((strSplitOn condition op).getD 0 ""),
      strTrim ((strSplitOn condition op).getD 1 "")))

/-- The effective fill colour: `color || 'FFFF00'`. -/
def hlColor (color : Option String) : String :=
  match color with
  | some c => if c = "" then "FFFF00" else c
  | none => "FFFF00"

/-- Whether a row matches the highlight condition: its cell in column `ci`
parses as a float satisfying the comparison against the threshold text. -/
def hlMatch (op valueStr : String) (ci : Nat) (row : SheetRow) : Bool :=
  match jsParseFloatOf (row.getD (ci - 1) defaultCell).v with
  | none => false
  | some n => evalOp op n (jsParseFloatStr valueStr)

/-- `HIGHLIGHT_ROWS`: parse `condition`; resolve the column name; silently
no-op when either step fails; then for every non-empty row other than row
1 that matches the comparison, set the fill of every non-empty cell of
that row. -/
def highlightRows (s : Sheet) (condition : String) (color : Option String) : Sheet :=
  match parseCondition condition with
  | none => s
  | some (op, colName, valueStr) =>
      match getColumnIndex s colName with
      | none => s
      | some (ci, _) =>
          s.mapIdx (fun i row =>
            if i = 0 then row
            else if !nonEmptyRow row then row
            else if hlMatch op valueStr ci row then
              row.map (fun c =>
                if isNullV c.v then c else { c with fill := some (hlColor color) })
            else row)

/-- Sort key of a collected row record: the value of the sort column, null
when the row does not reach it. -/
def recKey (ci : Nat) (r : Nat × List CellValue) : CellValue :=
  r.2.getD (ci - 1) CellValue.null

/-- The code's numeric-likeness test for a (non-null) sort key:
`!isNaN(Number(v)) && v.toString().trim() !== ''`. -/
def isNumKey (v : CellValue) : Bool :=
  (jsNumberOf v).isSome && decide (strTrim (jsToString v) ≠ "")

/-- The `SORT_DATA` comparator, returning a rational whose sign decides the
order: nulls always sort after defined keys, two numeric-like keys compare
numerically (with `desc` flipping the sign), everything else compares as
lower-cased text. -/
def sortCmp (order : String) (valA valB : CellValue) : Rat :=
  if isNullV valA && isNullV valB then 0
  else if isNullV valA then 1
  else if isNullV valB then -1
  else if isNumKey valA && isNumKey valB then
    if order = "desc" then subQ ((jsNumberOf valB).getD 0) ((jsNumberOf valA).getD 0)
    else subQ ((jsNumberOf valA).getD 0) ((jsNumberOf valB).getD 0)
  else if strLt (strLower (jsToString valB)) (strLower (jsToString valA)) then
    (if order = "desc" then -1 else 1)
  else if strLt (strLower (jsToString valA)) (strLower (jsToString valB)) then
    (if order = "desc" then 1 else -1)
  else 0

/-- Comparator on collected row records; `true` when the comparator is
non-positive, i.e. the stable sort keeps `a` before `b`. -/
def recLE (ci : Nat) (order : String) (a b : Nat × List CellValue) : Bool :=
  decide (sortCmp order (recKey ci a) (recKey ci b) ≤ 0)

/-- 0-based indices of the rows `eachRow` visits strictly below the header
row `hr` (1-based): non-empty rows with row number `> hr`. -/
def collectIdxs (s : Sheet) (hr : Nat) : List Nat :=
  (List.range s.length).filter (fun i => decide (hr ≤ i) && nonEmptyRow (s.getD i []))

def rowValuesAt (s : Sheet) (i : Nat) : List CellValue := (s.getD i []).map (·.v)

/-- Write a full row of values at 0-based index `i` (ExcelJS
`row.values = ...` replaces the row's cells; the new cells carry no fill). -/
def setRowVals (s : Sheet) (i : Nat) (vals : List CellValue) : Sheet :=
  s.set i (vals.map (fun v => ⟨v, none⟩))

/-- `SORT_DATA`: resolve the column (error when absent), collect every
non-empty row strictly below the header row, stable-sort the records by the
comparator, and write the sorted row contents back into the ascending list
of the collected row numbers. -/
def sortData (s : Sheet) (column order : String) : Except String Sheet :=
  match getColumnIndex s column with
  | none => Except.error s!"Column \"{column}\" not found."
  | some (ci, hr) =>
      let idxs := collectIdxs s hr
      let recs := idxs.map (fun i => (i, rowValuesAt s i))
      if recs.isEmpty then Except.ok s
      else
        let sorted := jsStableSort (recLE ci order) recs
        let targets := jsStableSort (fun a b => decide (a ≤ b)) (recs.map (·.1))
        Except.ok ((targets.zip (sorted.map (·.2))).foldl
          (fun acc p => setRowVals acc p.1 p.2) s)

/-- The target column of `UPDATE_KEY_VALUE`: the resolved `valueColumn`
when given and found, else the column after the key column. -/
def ukvValCol (s : Sheet) (keyColIndex : Nat) (valueColumn : Option String) : Nat :=
  match valueColumn with
  | some vc =>
      match getColumnIndex s vc with
      | some (c, _) => c
      | none => keyColIndex + 1
  | none => keyColIndex + 1

/-- Whether a row is updated by `UPDATE_KEY_VALUE`: loose-match against the
key-column cell or against the target cell itself. -/
def ukvRowMatch (keyColIndex valColIndex : Nat) (keyValue : CellValue)
    (row : SheetRow) : Bool :=
  looseMatch (row.getD (keyColIndex - 1) defaultCell).v keyValue ||
    looseMatch (row.getD (valColIndex - 1) defaultCell).v keyValue

/-- `UPDATE_KEY_VALUE`: resolve the key column (error when absent); the
target column is `ukvValCol`; scan every non-empty row — the header row
included — and overwrite the target cell with `newValue` whenever the key
cell or the target cell loose-matches `keyValue`; error when nothing
matched. -/
def updateKeyValue (s : Sheet) (keyColumn : String) (keyValue : CellValue)
    (valueColumn : Option String) (newValue : CellValue) : Except String Sheet :=
  match getColumnIndex s keyColumn with
  | none => Except.error s!"Key Column \"{keyColumn}\" not found."
  | some (keyColIndex, _) =>
      let valColIndex := ukvValCol s keyColIndex valueColumn
      let s' := s.map (fun row =>
        if nonEmptyRow row && ukvRowMatch keyColIndex valColIndex keyValue row then
          setCellInRow row valColIndex newValue
        else row)
      if s.any (fun row =>
          nonEmptyRow row && ukvRowMatch keyColIndex valColIndex keyValue row) then
        Except.ok s'
      else Except.error s!"No rows updated."

/-- Parse an A1-style address (letters then digits) into 1-based
(row, column); `none` models the ExcelJS failure on a malformed address. -/
def parseAddress (addr : String) : Option (Nat × Nat) :=
  let cs := addr.data
  let letters := cs.takeWhile Char.isAlpha
  let rest := cs.dropWhile Char.isAlpha
  if letters.isEmpty || rest.isEmpty || !rest.all Char.isDigit then none
  else
    let col := letters.foldl (fun a c => a * 26 + (c.toUpper.toNat - 64)) 0
    some (digitsToNat rest, col)

/-- `SET_CELL`: overwrite the single addressed cell. -/
def setCell (s : Sheet) (addr : String) (value : CellValue) : Except String Sheet :=
  match parseAddress addr with
  | none => Except.error s!"Invalid cell address \"{addr}\"."
  | some (r, c) => Except.ok (setCellVal s r c value)

/-- `FIND_AND_REPLACE`: when a column is named it must resolve (error
otherwise); replace every non-null cell (of the sheet, or of that column)
that loose-matches `findValue` with `replaceValue`; error when zero cells
matched. -/
def findAndReplace (s : Sheet) (findValue replaceValue : CellValue)
    (column : Option String) : Except String Sheet :=
  let resolved : Except String (Option Nat) :=
    match column with
    | none => Except.ok none
    | some colName =>
        match getColumnIndex s colName with
        | some (c, _) => Except.ok (some c)
        | none => Except.error s!"Column \"{colName}\" not found."
  match resolved with
  | Except.error e => Except.error e
  | Except.ok target =>
      let hits := fun (cIdx : Nat) (c : Cell) =>
        !(isNullV c.v) && (target.all (fun t => t = cIdx + 1)) && looseMatch c.v findValue
      let s' := s.map (fun row =>
        if nonEmptyRow row then
          row.mapIdx (fun cIdx c => if hits cIdx c then { c with v := replaceValue } else c)
        else row)
      if s.any (fun row => nonEmptyRow row && row.enum.any (fun p => hits p.1 p.2)) then
        Except.ok s'
      else Except.error s!"No occurrences found."

/-- The arithmetic / SET update of one cell inside `UPDATE_ROW_VALUES`; the
write is skipped when the computed value strictly equals the current one. -/
def urvUpdateCell (operation : String) (value : CellValue) (c : Cell) : Cell :=
  let currentVal := c.v
  let newVal :=
    if operation = "SET" then value
    else
      match jsParseFloatOf currentVal, jsParseFloatOf value with
      | some numCurrent, some numValue =>
          if operation = "+" then CellValue.num (addQ numCurrent numValue)
          else if operation = "-" then CellValue.num (subQ numCurrent numValue)
          else if operation = "*" then CellValue.num (mulQ numCurrent numValue)
          else if operation = "/" then
            if numValue ≠ 0 then CellValue.num (divQ numCurrent numValue) else currentVal
          else currentVal
      | _, _ => currentVal
  if jsStrictEq newVal currentVal then c else { c with v := newVal }

/-- `UPDATE_ROW_VALUES` (also legacy `ADD_VALUE_TO_ROW`): resolve the filter
column and, when named, the target column (errors when absent; SET requires
a target column); for every non-empty row other than the filter header row
whose filter cell loose-matches `filterValue`, update the target cell, or —
without a target column, arithmetic only — every cell except the filter
cell; error when zero rows matched. -/
def updateRowValues (s : Sheet) (filterColumn : String) (filterValue : CellValue)
    (operation : String) (value : CellValue) (targetColumn : Option String) :
    Except String Sheet :=
  match getColumnIndex s filterColumn with
  | none => Except.error s!"Filter Column \"{filterColumn}\" not found."
  | some (searchColIndex, headerRowIndex) =>
      let resolvedTarget : Except String (Option Nat) :=
        match targetColumn with
        | some tc =>
            match getColumnIndex s tc with
            | some (c, _) => Except.ok (some c)
            | none => Except.error s!"Target Column \"{tc}\" not found."
        | none =>
            if operation = "SET" then
              Except.error "Target Column is required for SET operation."
            else Except.ok none
      match resolvedTarget with
      | Except.error e => Except.error e
      | Except.ok targetColIndex =>
          let isMatch := fun (row : SheetRow) =>
            looseMatch (row.getD (searchColIndex - 1) defaultCell).v filterValue
          let doRow := fun (row : SheetRow) =>
            match targetColIndex with
            | some t =>
                (padTo row t defaultCell).set (t - 1)
                  (urvUpdateCell operation value (row.getD (t - 1) defaultCell))
            | none =>
                row.mapIdx (fun cIdx c =>
                  if cIdx + 1 ≠ searchColIndex && !(isNullV c.v) then
                    urvUpdateCell operation value c
                  else c)
          let visited := fun (i : Nat) (row : SheetRow) =>
            i + 1 ≠ headerRowIndex && nonEmptyRow row
          let s' := s.mapIdx (fun i row =>
            if visited i row && isMatch row then doRow row else row)
          if s.enum.any (fun p => visited p.1 p.2 && isMatch p.2) then Except.ok s'
          else Except.error s!"No rows updated."

/-! ### Action dispatch, persistence and batch execution

`processExcelAction` loads the workbook at a path, applies one action to its
first worksheet, and on success persists the result under a fresh path
(`name_Date.now()` in the source; the model derives the fresh path from the
step index).  A failing action persists nothing.  `executeAICommand` runs a
validated action list as a pipeline, recording one result per executed step
and stopping at the first failure. -/

/-- A validated action object (`{action, params}` after
`validateActionObject`); constructor fields mirror the source's `params`. -/
inductive ExcelAction where
  | addColumnA : String → String → ExcelAction
  | highlightRowsA : String → Option String → ExcelAction
  | sortDataA : String → String → ExcelAction
  | updateRowValuesA : String → CellValue → String → CellValue → Option String → ExcelAction
  | updateKeyValueA : String → CellValue → Option String → CellValue → ExcelAction
  | setCellA : String → CellValue → ExcelAction
  | findAndReplaceA : CellValue → CellValue → Option String → ExcelAction
deriving DecidableEq, Repr

/-- The action-name string of the dispatch switch. -/
def actionName : ExcelAction → String
  | ExcelAction.addColumnA _ _ => "ADD_COLUMN"
  | ExcelAction.highlightRowsA _ _ => "HIGHLIGHT_ROWS"
  | ExcelAction.sortDataA _ _ => "SORT_DATA"
  | ExcelAction.updateRowValuesA _ _ _ _ _ => "UPDATE_ROW_VALUES"
  | ExcelAction.updateKeyValueA _ _ _ _ => "UPDATE_KEY_VALUE"
  | ExcelAction.setCellA _ _ => "SET_CELL"
  | ExcelAction.findAndReplaceA _ _ _ => "FIND_AND_REPLACE"

/-- Apply one action to one sheet (the body of the dispatch switch). -/
def applyAction (s : Sheet) : ExcelAction → Except String Sheet
  | ExcelAction.addColumnA columnName formulaTemplate =>
      Except.ok (addColumn s columnName formulaTemplate)
  | ExcelAction.highlightRowsA condition color =>
      Except.ok (highlightRows s condition color)
  | ExcelAction.sortDataA column order => sortData s column order
  | ExcelAction.updateRowValuesA fc fv op v tc => updateRowValues s fc fv op v tc
  | ExcelAction.updateKeyValueA kc kv vc nv => updateKeyValue s kc kv vc nv
  | ExcelAction.setCellA addr v => setCell s addr v
  | ExcelAction.findAndReplaceA fv rv col => findAndReplace s fv rv col

/-- A workbook: named sheets in tab order. -/
abbrev Workbook := List (String × Sheet)

/-- The persisted file store: path → workbook snapshots, append-only here. -/
abbrev Store := List (String × Workbook)

/-- `processExcelAction(filePath, actionData)`: read the workbook (error
when the path is unknown), take its first worksheet (error when none),
apply the action, and only on success write the mutated workbook to a fresh
path, returning it. -/
def processExcelAction (store : Store) (path : String) (a : ExcelAction)
    (stepIdx : Nat) : Except String (Store × String) :=
  match store.lookup path with
  | none => Except.error s!"File not found: {path}"
  | some wb =>
      match wb with
      | [] => Except.error "Worksheet not found in the workbook."
      | (nm, sheet) :: rest =>
          (applyAction sheet a).map (fun sheet2 =>
            let newPath := path ++ "_" ++ toString stepIdx
            (store ++ [(newPath, (nm, sheet2) :: rest)], newPath))

/-- One per-step record of the batch response: index, action name, success
flag, error message on failure, produced snapshot path on success. -/
structure StepResult where
  index : Nat
  action : String
  success : Bool
  message : Option String
  filePath : Option String
deriving DecidableEq, Repr

def defaultStep : StepResult := ⟨0, "", false, none, none⟩

/-- `executeAICommand`'s execution loop: apply each step to the snapshot the
previous one produced; on failure record the error and stop. Returns the
final store, the current path, and the per-step records. -/
def runBatch (store : Store) (path : String) (acts : List ExcelAction)
    (i : Nat) : Store × String × List StepResult :=
  match acts with
  | [] => (store, path, [])
  | a :: rest =>
      match processExcelAction store path a i with
      | Except.ok (store2, path2) =>
          let out := runBatch store2 path2 rest (i + 1)
          (out.1, out.2.1, ⟨i, actionName a, true, none, some path2⟩ :: out.2.2)
      | Except.error e => (store, path, [⟨i, actionName a, false, some e, none⟩])

/-- The batch response: overall success flag, per-step records, final store
and (when any step succeeded) the last snapshot path. -/
structure BatchOutcome where
  success : Bool
  results : List StepResult
  store : Store
  filePath : Option String
deriving DecidableEq, Repr

/-- `executeAICommand` over an already-validated action list. -/
def executeAICommand (store : Store) (path : String) (acts : List ExcelAction) :
    BatchOutcome :=
  let out := runBatch store path acts 0
  { success := out.2.2.all (·.success)
    results := out.2.2
    store := out.1
    filePath := if out.2.2.any (·.success) then some out.2.1 else none }

/-! ### Windowed reader -/

def MAX_VIRTUAL_ROWS : Int := 1000
def MAX_VIRTUAL_COLS : Int := 100

/-- JSON string escaping for the `JSON.stringify` fallback (quote,
backslash and the common control characters; other control characters are
not produced by the modelled values). -/
def jsonEscape (s : String) : String :=
  String.mk (s.data.foldr (fun c acc =>
    if c = '"' then '\\' :: '"' :: acc
    else if c = '\\' then '\\' :: '\\' :: acc
    else if c = '\n' then '\\' :: 'n' :: acc
    else if c = '\r' then '\\' :: 'r' :: acc
    else if c = '\t' then '\\' :: 't' :: acc
    else c :: acc) [])

/-- `JSON.stringify` of the ExcelJS value objects that can reach the
windowed reader's fallback branch. -/
def jsonStringifyCell : CellValue → String
  | CellValue.formula f none => "\x7b\"formula\":\"" ++ jsonEscape f ++ "\"\x7d"
  | CellValue.formula f (some r) =>
      "\x7b\"formula\":\"" ++ jsonEscape f ++ "\",\"result\":" ++
        (match r with
         | FormulaResult.rnum q => ratToDecimalString q
         | FormulaResult.rstr s => "\"" ++ jsonEscape s ++ "\""
         | FormulaResult.rnull => "null") ++ "\x7d"
  | CellValue.rich runs =>
      "\x7b\"richText\":[" ++
        String.intercalate ","
          (runs.map (fun t => "\x7b\"text\":\"" ++ jsonEscape t ++ "\"\x7d")) ++
        "]\x7d"
  | v => jsToString v

/-- The `.text` property of a cell value object (JS property access):
none of the six modelled value shapes carries one — ExcelJS stores rich
text under `richText` and formulas under `formula`/`result` — so this is
`none` throughout; the source's `cellValue.text` check is kept for
fidelity. -/
def jsObjText : CellValue → Option String
  | _ => none

/-- The `.result` property of a cell value object. -/
def jsObjResult : CellValue → Option FormulaResult
  | CellValue.formula _ r => r
  | _ => none

/-- The windowed reader's per-cell coercion (`getWindowedSheetData`'s value
handling): null stays null, a Date becomes its ISO string, an object is
read through `.text`, then `.result`, then `JSON.stringify`, and primitives
pass through. -/
def coerceCell (v : CellValue) : CellValue :=
  match v with
  | CellValue.null => CellValue.null
  | CellValue.date _ iso => CellValue.str iso
  | CellValue.formula _ _ =>
      match jsObjText v with
      | some t => CellValue.str t
      | none =>
          match jsObjResult v with
          | some r => r.toCellValue
          | none => CellValue.str (jsonStringifyCell v)
  | CellValue.rich _ =>
      match jsObjText v with
      | some t => CellValue.str t
      | none =>
          match jsObjResult v with
          | some r => r.toCellValue
          | none => CellValue.str (jsonStringifyCell v)
  | v => v

/-- The `meta.window` object of the windowed response. -/
structure WindowBounds where
  rowStart : Int
  rowEnd : Int
  colStart : Int
  colEnd : Int
deriving DecidableEq, Repr

structure WindowMeta where
  totalRows : Int
  totalColumns : Int
  sheetName : String
  window : WindowBounds
deriving DecidableEq, Repr

structure WindowResult where
  data : List (List CellValue)
  meta : WindowMeta
deriving DecidableEq, Repr

/-- `getWindowedSheetData` on a resolved worksheet: clamp the row window to
the virtual bounds, ignore the requested columns (`colStart`/`colEnd` are
overwritten with `1`/`MAX_VIRTUAL_COLS`), and return one dense row of
coerced values per clamped row number. -/
def getWindowedSheetData (ws : Sheet) (sheetName : String)
    (rowStart rowEnd colStart colEnd : Int) : WindowResult :=
  let clampedRowStart := max 1 (min rowStart MAX_VIRTUAL_ROWS)
  let clampedRowEnd := max 1 (min rowEnd MAX_VIRTUAL_ROWS)
  let clampedColStart : Int := 1
  let clampedColEnd : Int := MAX_VIRTUAL_COLS
  let nRows := (clampedRowEnd + 1 - clampedRowStart).toNat
  let data := (List.range nRows).map (fun i =>
    (List.range MAX_VIRTUAL_COLS.toNat).map (fun j =>
      coerceCell (getCellVal ws (clampedRowStart.toNat + i) (j + 1))))
  { data := data
    meta :=
      { totalRows := MAX_VIRTUAL_ROWS
        totalColumns := MAX_VIRTUAL_COLS
        sheetName := sheetName
        window :=
          { rowStart := clampedRowStart
            rowEnd := clampedRowEnd
            colStart := clampedColStart
            colEnd := clampedColEnd } } }

instance {ε α : Type} [DecidableEq ε] [DecidableEq α] : DecidableEq (Except ε α) :=
  fun x y =>
    match x, y with
    | Except.ok a, Except.ok b =>
        if h : a = b then isTrue (by rw [h]) else isFalse (by simp [h])
    | Except.error a, Except.error b =>
        if h : a = b then isTrue (by rw [h]) else isFalse (by simp [h])
    | Except.ok _, Except.error _ => isFalse (by simp)
    | Except.error _, Except.ok _ => isFalse (by simp)

/-! ## Helper lemmas -/

theorem subQ_eq (a b : Rat) : subQ a b = a - b := by
  have ha : ((a.den : Rat)) ≠ 0 := by
    exact_mod_cast a.den_nz
  have hb : ((b.den : Rat)) ≠ 0 := by
    exact_mod_cast b.den_nz
  rw [subQ, Rat.mkRat_eq_div]
  conv_rhs => rw [← Rat.num_div_den a, ← Rat.num_div_den b]
  rw [div_sub_div _ _ ha hb]
  push_cast
  ring_nf

theorem getD_padTo {α : Type} (l : List α) (n : Nat) (d : α) (i : Nat) :
    (padTo l n d).getD i d = l.getD i d := by
  simp only [padTo, List.getD_eq_getElem?_getD, List.getElem?_append]
  split
  · rfl
  · rw [List.getElem?_replicate]
    have : l[i]? = none := List.getElem?_eq_none (by omega)
    rw [this]
    split <;> rfl

theorem length_padTo {α : Type} (l : List α) (n : Nat) (d : α) :
    (padTo l n d).length = max n l.length := by
  simp [padTo]
  omega

/-- Reading back the written cell. -/
theorem setCellInRow_self (row : SheetRow) (c : Nat) (v : CellValue) (hc : 1 ≤ c) :
    (setCellInRow row c v).getD (c - 1) defaultCell
      = ⟨v, (row.getD (c - 1) defaultCell).fill⟩ := by
  have hlen : c - 1 < (padTo row c defaultCell).length := by
    rw [length_padTo]; omega
  simp only [setCellInRow, List.getD_eq_getElem?_getD]
  rw [List.getElem?_set_self hlen]
  rfl

/-- Cells other than the written one are untouched. -/
theorem setCellInRow_other (row : SheetRow) (c : Nat) (v : CellValue) (i : Nat)
    (hi : i ≠ c - 1) :
    (setCellInRow row c v).getD i defaultCell = row.getD i defaultCell := by
  simp only [setCellInRow, List.getD_eq_getElem?_getD]
  rw [List.getElem?_set_ne (by omega)]
  rw [← List.getD_eq_getElem?_getD, getD_padTo, List.getD_eq_getElem?_getD]

/-- An `eachRow`-invisible row has only null cells, `getD` included. -/
theorem nonEmptyRow_false_all_null {row : SheetRow} (h : nonEmptyRow row = false)
    (i : Nat) : (row.getD i defaultCell).v = CellValue.null := by
  simp only [nonEmptyRow, List.any_eq_false] at h
  by_cases hi : i < row.length
  · have hmem : row[i] ∈ row := List.getElem_mem hi
    have := h _ hmem
    rw [List.getD_eq_getElem?_getD, List.getElem?_eq_getElem hi]
    cases hv : row[i].v <;> simp_all [isNullV]
  · rw [List.getD_eq_getElem?_getD, List.getElem?_eq_none (by omega)]
    rfl

/-- A null cell never loose-matches a non-null target. -/
theorem looseMatch_null_left {target : CellValue} (h : target ≠ CellValue.null) :
    looseMatch CellValue.null target = false := by
  cases target <;> simp_all [looseMatch, jsEq, jsTruthy]

/-! ## Claim theorems -/

/-- Pointwise agreement of the read path's coercion with its per-variant
specification (shared helper for the windowed-read claims). -/
theorem coerceCell_cases (v : CellValue) :
    coerceCell v =
      match v with
      | CellValue.null => CellValue.null
      | CellValue.date _ iso => CellValue.str iso
      | CellValue.formula _ (some r) => r.toCellValue
      | CellValue.formula _ none => CellValue.str (jsonStringifyCell v)
      | CellValue.rich _ => CellValue.str (jsonStringifyCell v)
      | w => w := by
  cases v with
  | formula f r => cases r <;> rfl
  | _ => rfl

/-- C1 (amended): the windowed read returns exactly
`clampedRowEnd + 1 - clampedRowStart` rows, each of exactly
`MAX_VIRTUAL_COLS = 100` values; the requested column window is ignored
(the clamped bounds are always columns 1..100), so Scenario C's
`read(1,2,1,2)` on the one-row sheet `["x","y"]` returns the row
`["x","y",null,...]` padded to 100 columns followed by a row of 100 nulls,
not `[["x","y"],[null,null]]`. -/
theorem windowed_read_dims (ws : Sheet) (nm : String) (rs re cs ce : Int) :
    ((getWindowedSheetData ws nm rs re cs ce).data.length
        = (max 1 (min re MAX_VIRTUAL_ROWS) + 1 - max 1 (min rs MAX_VIRTUAL_ROWS)).toNat)
    ∧ ((getWindowedSheetData ws nm rs re cs ce).data.all
        (fun row => row.length == 100) = true)
    ∧ ((getWindowedSheetData ws nm rs re cs ce).meta.window
        = ⟨max 1 (min rs MAX_VIRTUAL_ROWS), max 1 (min re MAX_VIRTUAL_ROWS), 1, 100⟩)
    ∧ ((getWindowedSheetData
          [[⟨CellValue.str "x", none⟩, ⟨CellValue.str "y", none⟩]] "Sheet1" 1 2 1 2).data
        = [[CellValue.str "x", CellValue.str "y"] ++ List.replicate 98 CellValue.null,
           List.replicate 100 CellValue.null]) := by
  refine ⟨?_, ?_, rfl, by decide⟩
  · simp [getWindowedSheetData]
  · simp only [List.all_eq_true, getWindowedSheetData]
    intro row hrow
    simp only [List.mem_map] at hrow
    obtain ⟨i, _, hi⟩ := hrow
    simp [← hi, MAX_VIRTUAL_COLS]

/-- C1 counterexample: Scenario C as the claim states it is false — the
windowed read of rows 1–2, columns 1–2 of the sheet whose only populated
row is `["x","y"]` does not return `[["x","y"],[null,null]]` (each returned
row has 100 entries). -/
theorem windowed_read_scenarioC_cex :
    (getWindowedSheetData
        [[⟨CellValue.str "x", none⟩, ⟨CellValue.str "y", none⟩]] "Sheet1" 1 2 1 2).data
      ≠ [[CellValue.str "x", CellValue.str "y"], [CellValue.null, CellValue.null]] := by
  decide

/-- Modelled from the spec (amended claim wording): the per-position value
of a windowed read — unset positions give null, a Date gives its ISO-8601
string, a formula with a cached result gives that result, a formula
without one and rich text give the JSON stringification of the underlying
value object, and every other value passes through unchanged. -/
def windowedCellSpec : CellValue → CellValue
  | CellValue.null => CellValue.null
  | CellValue.date _ iso => CellValue.str iso
  | CellValue.formula _ (some r) => r.toCellValue
  | CellValue.formula f none =>
      CellValue.str (jsonStringifyCell (CellValue.formula f none))
  | CellValue.rich runs => CellValue.str (jsonStringifyCell (CellValue.rich runs))
  | v => v

/-- C3 (amended): every position of the windowed read window carries
exactly `windowedCellSpec` of the underlying cell: null for unset cells,
the ISO string for dates, the cached result for formulas that carry one,
the JSON stringification of the value object for formulas without a cached
result and for rich text (the source reads `.text`, which the ExcelJS
formula and rich-text value objects do not carry), and the value itself
otherwise. -/
theorem windowed_read_cell_values :
    (∀ v, coerceCell v = windowedCellSpec v)
    ∧ (∀ (ws : Sheet) (nm : String) (rs re cs ce : Int),
        (getWindowedSheetData ws nm rs re cs ce).data
          = (List.range
                (max 1 (min re MAX_VIRTUAL_ROWS) + 1
                  - max 1 (min rs MAX_VIRTUAL_ROWS)).toNat).map (fun i =>
              (List.range 100).map (fun j =>
                windowedCellSpec
                  (getCellVal ws ((max 1 (min rs MAX_VIRTUAL_ROWS)).toNat + i)
                    (j + 1))))) := by
  have hpt : ∀ v, coerceCell v = windowedCellSpec v := by
    intro v
    cases v with
    | formula f r => cases r <;> rfl
    | _ => rfl
  refine ⟨hpt, ?_⟩
  intro ws nm rs re cs ce
  have hfun : coerceCell = windowedCellSpec := funext hpt
  simp [getWindowedSheetData, hfun, MAX_VIRTUAL_COLS]

/-- C3 counterexample: a formula cell without a cached result is returned
as the JSON stringification of the formula object, not as the formula
text; likewise rich text is not returned as its concatenated run text. -/
theorem windowed_read_formula_text_cex :
    (((getWindowedSheetData [[⟨CellValue.formula "A1+B1" none, none⟩]] "S" 1 1 1 1).data.getD
          0 []).getD 0 CellValue.null
        = CellValue.str "\x7b\"formula\":\"A1+B1\"\x7d")
    ∧ (((getWindowedSheetData [[⟨CellValue.formula "A1+B1" none, none⟩]] "S" 1 1 1 1).data.getD
          0 []).getD 0 CellValue.null
        ≠ CellValue.str "A1+B1")
    ∧ coerceCell (CellValue.rich ["a", "b"]) ≠ CellValue.str "ab" := by
  refine ⟨by decide, by decide, by decide⟩

theorem hlMatch_of_not_nonEmpty {row : SheetRow} (h : nonEmptyRow row = false)
    (op valueStr : String) (ci : Nat) : hlMatch op valueStr ci row = false := by
  unfold hlMatch
  rw [nonEmptyRow_false_all_null h]
  rfl

/-- Mapping a value-preserving function over a row leaves every read value
unchanged. -/
theorem getD_map_v (row : SheetRow) (g : Cell → Cell) (hv : ∀ c, (g c).v = c.v)
    (i : Nat) :
    ((row.map g).getD i defaultCell).v = (row.getD i defaultCell).v := by
  rw [List.getD_eq_getElem?_getD, List.getD_eq_getElem?_getD, List.getElem?_map]
  cases h : row[i]? <;> simp [hv]

/-- Reading the fill after the highlight pass over one row. -/
theorem fill_map_fill (row : SheetRow) (colorStr : String) (i : Nat) :
    ((row.map (fun c => if isNullV c.v then c
        else { c with fill := some colorStr })).getD i defaultCell).fill
      = if isNullV ((row.getD i defaultCell).v) = true
        then (row.getD i defaultCell).fill else some colorStr := by
  rw [List.getD_eq_getElem?_getD, List.getD_eq_getElem?_getD, List.getElem?_map]
  cases h : row[i]? with
  | none => simp [defaultCell, isNullV]
  | some cell => by_cases hn : isNullV cell.v = true <;> simp [hn]

/-- C4 (amended): `HIGHLIGHT_ROWS` resolves its column name through the
column resolver and is a silent no-op when the name does not resolve; when
it resolves to column `ci`, cell values are never changed, and exactly the
rows other than row 1 whose cell in column `ci` parses as a float
satisfying the comparison receive the fill colour (default `FFFF00`) on
each of their non-null cells — the skipped row is row 1, not every row at
or above the resolved header row. -/
theorem highlightRows_row_filter (s : Sheet) (condition : String)
    (color : Option String) (op colName valueStr : String)
    (hp : parseCondition condition = some (op, colName, valueStr)) :
    (getColumnIndex s colName = none → highlightRows s condition color = s)
    ∧ (∀ ci hr, getColumnIndex s colName = some (ci, hr) →
        (∀ r c, 1 ≤ r → getCellVal (highlightRows s condition color) r c
            = getCellVal s r c)
        ∧ (∀ r c, 1 ≤ r →
            getCellFill (highlightRows s condition color) r c
              = if 2 ≤ r ∧ hlMatch op valueStr ci (getRow s r) = true
                    ∧ isNullV (getCellVal s r c) = false
                then some (hlColor color) else getCellFill s r c)) := by
  constructor
  · intro hnone
    simp [highlightRows, hp, hnone]
  · intro ci hr hci
    have key : ∀ r, 1 ≤ r →
        getRow (highlightRows s condition color) r
          = if 2 ≤ r ∧ hlMatch op valueStr ci (getRow s r) = true then
              (getRow s r).map (fun c =>
                if isNullV c.v then c else { c with fill := some (hlColor color) })
            else getRow s r := by
      intro r hrge
      have hs : highlightRows s condition color
          = s.mapIdx (fun i row =>
              if i = 0 then row
              else if !nonEmptyRow row then row
              else if hlMatch op valueStr ci row then
                row.map (fun c =>
                  if isNullV c.v then c
                  else { c with fill := some (hlColor color) })
              else row) := by
        simp [highlightRows, hp, hci]
      by_cases hlen : r - 1 < s.length
      · have hrs : getRow s r = s[r - 1] := by
          rw [getRow, List.getD_eq_getElem?_getD, List.getElem?_eq_getElem hlen]
          rfl
        have hrs2 : getRow (highlightRows s condition color) r
            = (if r - 1 = 0 then s[r - 1]
              else if !nonEmptyRow s[r - 1] then s[r - 1]
              else if hlMatch op valueStr ci s[r - 1] then
                s[r - 1].map (fun c =>
                  if isNullV c.v then c
                  else { c with fill := some (hlColor color) })
              else s[r - 1]) := by
          rw [hs, getRow, List.getD_eq_getElem?_getD, List.getElem?_mapIdx,
            List.getElem?_eq_getElem hlen]
          rfl
        rw [hrs2, hrs]
        by_cases h0 : r - 1 = 0
        · rw [if_pos h0, if_neg (by omega)]
        · rw [if_neg h0]
          by_cases hne : nonEmptyRow s[r - 1] = true
          · rw [if_neg (by simp [hne])]
            by_cases hm : hlMatch op valueStr ci s[r - 1] = true
            · rw [if_pos hm, if_pos ⟨by omega, hm⟩]
            · rw [if_neg hm, if_neg (by intro hcon; exact hm hcon.2)]
          · have hne2 : nonEmptyRow s[r - 1] = false := by
              simpa using hne
            rw [if_pos (by simp [hne2])]
            rw [if_neg (by
              intro hcon
              rw [hlMatch_of_not_nonEmpty hne2] at hcon
              exact Bool.false_ne_true hcon.2)]
      · have hrs : getRow s r = [] := by
          rw [getRow, List.getD_eq_getElem?_getD, List.getElem?_eq_none (by omega)]
          rfl
        have hrs2 : getRow (highlightRows s condition color) r = [] := by
          rw [hs, getRow, List.getD_eq_getElem?_getD, List.getElem?_mapIdx,
            List.getElem?_eq_none (by omega)]
          rfl
        rw [hrs, hrs2]
        split <;> rfl
    constructor
    · intro r c hrge
      rw [getCellVal, getCellVal, key r hrge]
      split
      · rw [getD_map_v]
        intro cell
        by_cases h : isNullV cell.v = true <;> simp [h]
      · rfl
    · intro r c hrge
      rw [getCellFill, getCellFill, key r hrge]
      by_cases hcond : 2 ≤ r ∧ hlMatch op valueStr ci (getRow s r) = true
      · rw [if_pos hcond, fill_map_fill]
        by_cases hnull : isNullV ((getRow s r).getD (c - 1) defaultCell).v = true
        · rw [if_pos hnull,
            if_neg (by
              intro hcon
              have h2 := hcon.2.2
              rw [getCellVal] at h2
              rw [h2] at hnull
              exact Bool.false_ne_true hnull)]
        · have hnull2 : isNullV (getCellVal s r c) = false := by
            rw [getCellVal]
            simpa using hnull
          rw [if_neg hnull, if_pos ⟨hcond.1, hcond.2, hnull2⟩]
      · rw [if_neg hcond,
          if_neg (by intro hcon; exact hcond ⟨hcon.1, hcon.2.1⟩)]

/-- C4 witness: Scenario B — on the sheet with header row
`["Name","Revenue"]` and rows Raj 100 / Amy 300, `Revenue > 150` fills
exactly Amy's row. -/
theorem highlightRows_row_filter_witness :
    getCellFill
        (highlightRows
          [[⟨CellValue.str "Name", none⟩, ⟨CellValue.str "Revenue", none⟩],
           [⟨CellValue.str "Raj", none⟩, ⟨CellValue.num 100, none⟩],
           [⟨CellValue.str "Amy", none⟩, ⟨CellValue.num 300, none⟩]]
          "Revenue > 150" none) 3 1
      = some "FFFF00" := by
  have h := (highlightRows_row_filter
    [[⟨CellValue.str "Name", none⟩, ⟨CellValue.str "Revenue", none⟩],
     [⟨CellValue.str "Raj", none⟩, ⟨CellValue.num 100, none⟩],
     [⟨CellValue.str "Amy", none⟩, ⟨CellValue.num 300, none⟩]]
    "Revenue > 150" none ">" "Revenue" "150" (by decide)).2 2 1 (by decide)
  rw [h.2 3 1 (by omega)]
  decide

/-- C4 counterexample: with the column name found at header row 3, the
numeric row 2 sitting above the header row is highlighted, contradicting
"no row at or above the header row is ever highlighted" — the code skips
only row 1. -/
theorem highlightRows_above_header_cex :
    (getColumnIndex
        [[⟨CellValue.str "Title", none⟩], [⟨CellValue.str "999", none⟩],
         [⟨CellValue.str "Rev", none⟩], [⟨CellValue.str "200", none⟩]] "Rev"
      = some (1, 3))
    ∧ (getCellFill
        (highlightRows
          [[⟨CellValue.str "Title", none⟩], [⟨CellValue.str "999", none⟩],
           [⟨CellValue.str "Rev", none⟩], [⟨CellValue.str "200", none⟩]]
          "Rev > 150" none) 2 1
      = some "FFFF00") :=
  ⟨by decide, by decide⟩

/-- C5: in `SORT_DATA`'s comparator two null keys compare equal, a null key
sorts after any defined key regardless of the order, `desc` exactly negates
`asc` on two defined keys, and Scenario A sorts
`[["Raj",100],["Amy",300],["Z",null]]` by Revenue descending into
`[["Amy",300],["Raj",100],["Z",null]]`. -/
theorem sortData_comparator_and_scenarioA :
    (∀ order, sortCmp order CellValue.null CellValue.null = 0)
    ∧ (∀ order a, isNullV a = false →
        sortCmp order a CellValue.null < 0 ∧ 0 < sortCmp order CellValue.null a)
    ∧ (∀ a b, isNullV a = false → isNullV b = false →
        sortCmp "desc" a b = -(sortCmp "asc" a b))
    ∧ (sortData
          [[⟨CellValue.str "Name", none⟩, ⟨CellValue.str "Revenue", none⟩],
           [⟨CellValue.str "Raj", none⟩, ⟨CellValue.num 100, none⟩],
           [⟨CellValue.str "Amy", none⟩, ⟨CellValue.num 300, none⟩],
           [⟨CellValue.str "Z", none⟩, ⟨CellValue.null, none⟩]]
          "Revenue" "desc"
        = Except.ok
          [[⟨CellValue.str "Name", none⟩, ⟨CellValue.str "Revenue", none⟩],
           [⟨CellValue.str "Amy", none⟩, ⟨CellValue.num 300, none⟩],
           [⟨CellValue.str "Raj", none⟩, ⟨CellValue.num 100, none⟩],
           [⟨CellValue.str "Z", none⟩, ⟨CellValue.null, none⟩]]) := by
  refine ⟨?_, ?_, ?_, by decide⟩
  · intro order; rfl
  · intro order a ha
    simp only [sortCmp, ha, show isNullV CellValue.null = true from rfl,
      Bool.false_and, Bool.true_and, Bool.and_true, Bool.false_eq_true, if_false,
      if_true]
    norm_num
  · intro a b ha hb
    simp only [sortCmp, ha, hb, Bool.false_and, Bool.and_false, Bool.false_eq_true,
      if_false]
    split_ifs <;> first
      | (exfalso; exact (by decide : ¬("asc" = "desc")) (by assumption))
      | (rw [subQ_eq, subQ_eq]; ring)
      | norm_num

/-- C5 witness: the comparator facts instantiated at concrete keys. -/
theorem sortData_comparator_witness :
    (sortCmp "asc" (CellValue.num 100) CellValue.null < 0)
    ∧ (sortCmp "desc" (CellValue.num 100) (CellValue.num 300)
        = -(sortCmp "asc" (CellValue.num 100) (CellValue.num 300))) :=
  ⟨(sortData_comparator_and_scenarioA.2.1 "asc" (CellValue.num 100) (by decide)).1,
   sortData_comparator_and_scenarioA.2.2.1 (CellValue.num 100) (CellValue.num 300)
     (by decide) (by decide)⟩

/-- A resolved column index is 1-based, hence positive. -/
theorem gciAux_pos {rows : List SheetRow} {rn : Nat} {name : String}
    {scanDepth : Nat} {ci fr : Nat}
    (h : gciAux rows rn name scanDepth = some (ci, fr)) : 1 ≤ ci ∧ rn ≤ fr := by
  induction rows generalizing rn with
  | nil => simp [gciAux] at h
  | cons row rest ih =>
      rw [gciAux] at h
      by_cases hd : rn > scanDepth
      · rw [if_pos hd] at h
        exact absurd h (by simp)
      · rw [if_neg hd] at h
        cases hf : findCellIdx row name with
        | some c =>
            rw [hf] at h
            simp only [Option.some.injEq, Prod.mk.injEq] at h
            obtain ⟨h1, h2⟩ := h
            constructor
            · rw [← h1]
              simp [findCellIdx] at hf
              omega
            · omega
        | none =>
            rw [hf] at h
            have := ih h
            omega

theorem getColumnIndex_pos {s : Sheet} {name : String} {ci fr : Nat}
    (h : getColumnIndex s name = some (ci, fr)) : 1 ≤ ci ∧ 1 ≤ fr :=
  ⟨(gciAux_pos h).1, (gciAux_pos h).2⟩

theorem ukvValCol_pos (s : Sheet) (kci : Nat) (valueColumn : Option String) :
    1 ≤ kci → 1 ≤ ukvValCol s kci valueColumn := by
  intro hk
  cases valueColumn with
  | none =>
      simp only [ukvValCol]
      omega
  | some vc =>
      cases hvc : getColumnIndex s vc with
      | none =>
          simp only [ukvValCol, hvc]
          omega
      | some p =>
          obtain ⟨c, fr⟩ := p
          simp only [ukvValCol, hvc]
          exact (getColumnIndex_pos hvc).1

/-- When the key value is non-null, a row that `eachRow` skips can never
match `UPDATE_KEY_VALUE`'s criteria. -/
theorem ukvRowMatch_of_not_nonEmpty {keyValue : CellValue}
    (hkv : keyValue ≠ CellValue.null) {row : SheetRow}
    (h : nonEmptyRow row = false) (kci vci : Nat) :
    ukvRowMatch kci vci keyValue row = false := by
  unfold ukvRowMatch
  rw [nonEmptyRow_false_all_null h, nonEmptyRow_false_all_null h,
    looseMatch_null_left hkv]
  rfl

/-- C8: `UPDATE_KEY_VALUE` scans every row of the sheet — the header row
included — and a row's target cell is overwritten with `newValue` exactly
when loose-match succeeds against its key-column cell or its target cell;
all other cells and all fills are untouched, and Scenario D rewrites the
header-like row `["Name","OldVal"]` into `["Name","Raj"]`. -/
theorem updateKeyValue_scan (s : Sheet) (keyColumn : String)
    (keyValue : CellValue) (valueColumn : Option String) (newValue : CellValue)
    (s2 : Sheet) (kci hr : Nat)
    (hok : updateKeyValue s keyColumn keyValue valueColumn newValue
      = Except.ok s2)
    (hres : getColumnIndex s keyColumn = some (kci, hr))
    (hkv : keyValue ≠ CellValue.null) :
    (s2.length = s.length)
    ∧ (∀ r c, 1 ≤ r → 1 ≤ c →
        (c = ukvValCol s kci valueColumn →
          getCellVal s2 r c
            = if ukvRowMatch kci (ukvValCol s kci valueColumn) keyValue
                  (getRow s r) = true
              then newValue else getCellVal s r c)
        ∧ (c ≠ ukvValCol s kci valueColumn →
            getCellVal s2 r c = getCellVal s r c)
        ∧ getCellFill s2 r c = getCellFill s r c)
    ∧ (updateKeyValue
          [[⟨CellValue.str "Name", none⟩, ⟨CellValue.str "OldVal", none⟩]]
          "Name" (CellValue.str "Name") none (CellValue.str "Raj")
        = Except.ok
          [[⟨CellValue.str "Name", none⟩, ⟨CellValue.str "Raj", none⟩]]) := by
  have hvci : 1 ≤ ukvValCol s kci valueColumn :=
    ukvValCol_pos s kci valueColumn (getColumnIndex_pos hres).1
  simp only [updateKeyValue, hres] at hok
  set vci := ukvValCol s kci valueColumn with hvcidef
  set f := fun row =>
    if nonEmptyRow row && ukvRowMatch kci vci keyValue row then
      setCellInRow row vci newValue
    else row with hfdef
  have hmap : s.map f = s2 := by
    by_cases hany : s.any (fun row =>
        nonEmptyRow row && ukvRowMatch kci vci keyValue row) = true
    · rw [if_pos hany] at hok
      simpa using hok
    · rw [if_neg hany] at hok
      simp at hok
  have hcond : ∀ row, (nonEmptyRow row && ukvRowMatch kci vci keyValue row)
      = ukvRowMatch kci vci keyValue row := by
    intro row
    by_cases hne : nonEmptyRow row = true
    · rw [hne, Bool.true_and]
    · have hne2 : nonEmptyRow row = false := by simpa using hne
      rw [hne2, ukvRowMatch_of_not_nonEmpty hkv hne2]
      rfl
  have hrowf : ∀ r, 1 ≤ r → getRow s2 r = f (getRow s r) := by
    intro r _
    rw [← hmap, getRow, getRow, List.getD_eq_getElem?_getD,
      List.getD_eq_getElem?_getD, List.getElem?_map]
    cases h : s[r - 1]? with
    | none =>
        show [] = f []
        rw [hfdef]
        simp [nonEmptyRow]
    | some row => rfl
  refine ⟨by rw [← hmap]; simp, ?_, by decide⟩
  intro r c hrge hcge
  have hrow := hrowf r hrge
  rw [hfdef] at hrow
  simp only [hcond] at hrow
  by_cases hm : ukvRowMatch kci vci keyValue (getRow s r) = true
  · rw [if_pos hm] at hrow
    refine ⟨?_, ?_, ?_⟩
    · intro hcv
      rw [if_pos hm, getCellVal, hrow, hcv]
      rw [show (setCellInRow (getRow s r) vci newValue).getD (vci - 1) defaultCell
          = ⟨newValue, ((getRow s r).getD (vci - 1) defaultCell).fill⟩
        from setCellInRow_self _ _ _ hvci]
    · intro hne
      rw [getCellVal, getCellVal, hrow,
        setCellInRow_other _ _ _ _ (by omega)]
    · rw [getCellFill, getCellFill, hrow]
      by_cases hcv : c = vci
      · rw [hcv,
          show (setCellInRow (getRow s r) vci newValue).getD (vci - 1) defaultCell
              = ⟨newValue, ((getRow s r).getD (vci - 1) defaultCell).fill⟩
            from setCellInRow_self _ _ _ hvci]
      · rw [setCellInRow_other _ _ _ _ (by omega)]
  · rw [if_neg hm] at hrow
    refine ⟨?_, ?_, ?_⟩
    · intro _
      rw [if_neg hm, getCellVal, getCellVal, hrow]
    · intro _
      rw [getCellVal, getCellVal, hrow]
    · rw [getCellFill, getCellFill, hrow]

/-- C8 witness: the characterization applied to Scenario D's sheet at the
target cell (row 1, the value column next to the key column). -/
theorem updateKeyValue_scan_witness :
    getCellVal [[⟨CellValue.str "Name", none⟩, ⟨CellValue.str "Raj", none⟩]] 1
        (ukvValCol [[⟨CellValue.str "Name", none⟩,
          ⟨CellValue.str "OldVal", none⟩]] 1 none)
      = if ukvRowMatch 1
            (ukvValCol [[⟨CellValue.str "Name", none⟩,
              ⟨CellValue.str "OldVal", none⟩]] 1 none)
            (CellValue.str "Name")
            (getRow [[⟨CellValue.str "Name", none⟩,
              ⟨CellValue.str "OldVal", none⟩]] 1) = true
        then CellValue.str "Raj"
        else getCellVal [[⟨CellValue.str "Name", none⟩,
          ⟨CellValue.str "OldVal", none⟩]] 1
          (ukvValCol [[⟨CellValue.str "Name", none⟩,
            ⟨CellValue.str "OldVal", none⟩]] 1 none) :=
  ((updateKeyValue_scan
      [[⟨CellValue.str "Name", none⟩, ⟨CellValue.str "OldVal", none⟩]]
      "Name" (CellValue.str "Name") none (CellValue.str "Raj")
      [[⟨CellValue.str "Name", none⟩, ⟨CellValue.str "Raj", none⟩]]
      1 1 (by decide) (by decide) (by decide)).2.1 1
    (ukvValCol [[⟨CellValue.str "Name", none⟩,
      ⟨CellValue.str "OldVal", none⟩]] 1 none)
    (by omega) (by decide)).1 rfl

theorem mergeFuel_eq {α : Type} (le : α → α → Bool) :
    ∀ (fuel : Nat) (xs ys : List α), xs.length + ys.length ≤ fuel →
      mergeFuel le fuel xs ys = xs.merge ys le := by
  intro fuel
  induction fuel with
  | zero =>
      intro xs ys h
      have hx : xs = [] := by cases xs <;> simp_all
      have hy : ys = [] := by cases ys <;> simp_all
      subst hx; subst hy
      simp [mergeFuel, List.nil_merge]
  | succ fuel ih =>
      intro xs ys h
      cases xs with
      | nil => simp [mergeFuel, List.nil_merge]
      | cons x xt =>
          cases ys with
          | nil =>
              show (x :: xt) = (x :: xt).merge [] le
              cases xt <;> simp [List.merge]
          | cons y yt =>
              rw [show mergeFuel le (fuel + 1) (x :: xt) (y :: yt)
                  = if le x y then x :: mergeFuel le fuel xt (y :: yt)
                    else y :: mergeFuel le fuel (x :: xt) yt from rfl]
              rw [List.cons_merge_cons]
              by_cases hle : le x y = true
              · rw [if_pos hle, if_pos hle,
                  ih _ _ (by simp only [List.length_cons] at h ⊢; omega)]
              · rw [if_neg hle, if_neg hle,
                  ih _ _ (by simp only [List.length_cons] at h ⊢; omega)]

theorem mergeSortF_eq {α : Type} (le : α → α → Bool) :
    ∀ (fuel : Nat) (l : List α), l.length ≤ fuel →
      mergeSortF le fuel l = l.mergeSort le := by
  intro fuel
  induction fuel with
  | zero =>
      intro l h
      have hl : l = [] := by cases l <;> simp_all
      subst hl
      simp [mergeSortF, List.mergeSort_nil]
  | succ fuel ih =>
      intro l h
      match l with
      | [] => simp [mergeSortF, List.mergeSort_nil]
      | [a] => simp [mergeSortF, List.mergeSort_singleton]
      | a :: b :: xs =>
          have e1 : mergeSortF le (fuel + 1) (a :: b :: xs)
              = mergeFuel le (xs.length + 2)
                  (mergeSortF le fuel ((a :: b :: xs).take ((xs.length + 3) / 2)))
                  (mergeSortF le fuel
                    ((a :: b :: xs).drop ((xs.length + 3) / 2))) := rfl
          have e2 : (a :: b :: xs).mergeSort le
              = (((a :: b :: xs).take ((xs.length + 3) / 2)).mergeSort le).merge
                  (((a :: b :: xs).drop ((xs.length + 3) / 2)).mergeSort le)
                  le := by
            rw [List.mergeSort.eq_def (a :: b :: xs) le]
            simp only [List.splitInTwo_fst, List.splitInTwo_snd]
            simp [List.length_cons]
          have hlc : (a :: b :: xs).length = xs.length + 2 := by simp
          have htake : ((a :: b :: xs).take ((xs.length + 3) / 2)).length ≤ fuel := by
            rw [List.length_take, hlc]
            rw [List.length_cons, List.length_cons] at h
            omega
          have hdrop : ((a :: b :: xs).drop ((xs.length + 3) / 2)).length ≤ fuel := by
            rw [List.length_drop, hlc]
            rw [List.length_cons, List.length_cons] at h
            omega
          rw [e1, e2, ih _ htake, ih _ hdrop]
          apply mergeFuel_eq
          rw [List.length_mergeSort, List.length_mergeSort, List.length_take,
            List.length_drop, hlc]
          omega

theorem jsStableSort_eq {α : Type} (le : α → α → Bool) (l : List α) :
    jsStableSort le l = l.mergeSort le :=
  mergeSortF_eq le l.length l (Nat.le_refl _)

/-! ### Frame lemmas for the sort write-back -/

theorem setRowVals_length (s : Sheet) (i : Nat) (vals : List CellValue) :
    (setRowVals s i vals).length = s.length := by
  simp [setRowVals]

theorem setRowVals_getD_ne (s : Sheet) (i j : Nat) (vals : List CellValue)
    (h : i ≠ j) : (setRowVals s i vals).getD j [] = s.getD j [] := by
  simp only [setRowVals, List.getD_eq_getElem?_getD]
  rw [List.getElem?_set_ne h]

theorem writeBack_length (pairs : List (Nat × List CellValue)) :
    ∀ s : Sheet, (pairs.foldl (fun acc p => setRowVals acc p.1 p.2) s).length
      = s.length := by
  induction pairs with
  | nil => intro s; rfl
  | cons p ps ih =>
      intro s
      rw [List.foldl_cons, ih, setRowVals_length]

theorem writeBack_untouched (pairs : List (Nat × List CellValue)) :
    ∀ (s : Sheet) (i : Nat), (∀ p ∈ pairs, p.1 ≠ i) →
      (pairs.foldl (fun acc p => setRowVals acc p.1 p.2) s).getD i []
        = s.getD i [] := by
  induction pairs with
  | nil => intro s i _; rfl
  | cons p ps ih =>
      intro s i h
      rw [List.foldl_cons, ih _ _ (fun q hq => h q (by simp [hq])),
        setRowVals_getD_ne _ _ _ _ (h p (by simp))]

theorem writeBack_written (pairs : List (Nat × List CellValue)) :
    ∀ s : Sheet, (pairs.map Prod.fst).Nodup → (∀ p ∈ pairs, p.1 < s.length) →
      ∀ p ∈ pairs, (pairs.foldl (fun acc q => setRowVals acc q.1 q.2) s).getD p.1 []
        = p.2.map (fun v => ⟨v, none⟩) := by
  induction pairs with
  | nil => intro s _ _ p hp; simp at hp
  | cons q ps ih =>
      intro s hnd hlt p hp
      rw [List.map_cons, List.nodup_cons] at hnd
      rw [List.foldl_cons]
      rcases List.mem_cons.mp hp with hpq | hps
      · subst hpq
        rw [writeBack_untouched ps _ _
          (fun r hr hcon =>
            hnd.1 (by rw [← hcon]; exact List.mem_map_of_mem Prod.fst hr))]
        simp only [setRowVals, List.getD_eq_getElem?_getD]
        rw [List.getElem?_set_self (by exact hlt p (by simp))]
        rfl
      · exact ih _ hnd.2
          (fun r hr => by rw [setRowVals_length]; exact hlt r (by simp [hr]))
          p hps

theorem collectIdxs_mem {s : Sheet} {hr i : Nat} (h : i ∈ collectIdxs s hr) :
    i < s.length ∧ hr ≤ i ∧ nonEmptyRow (s.getD i []) = true := by
  rw [collectIdxs, List.mem_filter, List.mem_range] at h
  obtain ⟨h1, h2⟩ := h
  rw [Bool.and_eq_true, decide_eq_true_eq] at h2
  exact ⟨h1, h2.1, h2.2⟩

theorem collectIdxs_pairwise (s : Sheet) (hr : Nat) :
    (collectIdxs s hr).Pairwise (· < ·) :=
  (List.pairwise_lt_range s.length).filter _

theorem collectIdxs_nodup (s : Sheet) (hr : Nat) : (collectIdxs s hr).Nodup :=
  (collectIdxs_pairwise s hr).nodup

/-- The list of participating row indices, re-sorted ascending as the code
does, is itself. -/
theorem sortTargets_eq (s : Sheet) (hr : Nat) :
    jsStableSort (fun a b => decide (a ≤ b))
        ((collectIdxs s hr).map (fun i => (i, rowValuesAt s i)) |>.map (·.1))
      = collectIdxs s hr := by
  have hfst : ((collectIdxs s hr).map (fun i => (i, rowValuesAt s i)) |>.map (·.1))
      = collectIdxs s hr := by
    rw [List.map_map]
    exact List.map_id _
  rw [hfst, jsStableSort_eq, List.mergeSort_of_sorted]
  exact (collectIdxs_pairwise s hr).imp
    (fun h => by simpa using Nat.le_of_lt h)

/-- C6: a successful `SORT_DATA` preserves the row count, leaves every row
at or above the header row (and every non-participating row) untouched,
and permutes the participating rows' contents within exactly the original
set of row numbers. -/
theorem sortData_frame (s : Sheet) (column order : String) (s2 : Sheet)
    (ci hr : Nat) (hok : sortData s column order = Except.ok s2)
    (hres : getColumnIndex s column = some (ci, hr)) :
    (s2.length = s.length)
    ∧ (∀ r, 1 ≤ r → r ≤ hr → getRow s2 r = getRow s r)
    ∧ (∀ i, i ∉ collectIdxs s hr → s2.getD i [] = s.getD i [])
    ∧ ((collectIdxs s hr).map (fun i => rowValuesAt s2 i)).Perm
        ((collectIdxs s hr).map (fun i => rowValuesAt s i)) := by
  simp only [sortData, hres] at hok
  by_cases hemp : ((collectIdxs s hr).map
      (fun i => (i, rowValuesAt s i))).isEmpty = true
  · rw [if_pos hemp] at hok
    simp only [Except.ok.injEq] at hok
    subst hok
    exact ⟨rfl, fun r _ _ => rfl, fun i _ => rfl, List.Perm.refl _⟩
  · rw [if_neg hemp] at hok
    simp only [Except.ok.injEq] at hok
    set recs := (collectIdxs s hr).map (fun i => (i, rowValuesAt s i)) with hrecs
    set sorted := jsStableSort (recLE ci order) recs with hsorted
    set pairs := (jsStableSort (fun a b => decide (a ≤ b)) (recs.map (·.1))).zip
      (sorted.map (·.2)) with hpairs
    have htgt : jsStableSort (fun a b => decide (a ≤ b)) (recs.map (·.1))
        = collectIdxs s hr := sortTargets_eq s hr
    have hsortlen : sorted.length = recs.length := by
      rw [hsorted, jsStableSort_eq, List.length_mergeSort]
    have hreclen : recs.length = (collectIdxs s hr).length := by
      rw [hrecs, List.length_map]
    have hpfst : pairs.map Prod.fst = collectIdxs s hr := by
      rw [hpairs, List.map_fst_zip, htgt]
      rw [htgt, List.length_map, hsortlen, hreclen]
    have hpsnd : pairs.map Prod.snd = sorted.map (·.2) := by
      rw [hpairs, List.map_snd_zip]
      rw [htgt, List.length_map, hsortlen, hreclen]
    have hmemfst : ∀ p ∈ pairs, p.1 ∈ collectIdxs s hr := by
      intro p hp
      rw [← hpfst]
      exact List.mem_map_of_mem Prod.fst hp
    have huntouched : ∀ i, i ∉ collectIdxs s hr → s2.getD i [] = s.getD i [] := by
      intro i hi
      rw [← hok]
      exact writeBack_untouched pairs s i
        (fun p hp hcon => hi (by rw [← hcon]; exact hmemfst p hp))
    refine ⟨?_, ?_, huntouched, ?_⟩
    · rw [← hok, writeBack_length]
    · intro r hr1 hrhr
      have : r - 1 ∉ collectIdxs s hr := by
        intro hmem
        have := (collectIdxs_mem hmem).2.1
        omega
      rw [getRow, getRow, huntouched _ this]
    · have hwrit := writeBack_written pairs s
        (by rw [hpfst]; exact collectIdxs_nodup s hr)
        (fun p hp => (collectIdxs_mem (hmemfst p hp)).1)
      have hmap : (pairs.map Prod.fst).map (fun i => rowValuesAt s2 i)
          = pairs.map Prod.snd := by
        rw [List.map_map]
        apply List.map_congr_left
        intro p hp
        show rowValuesAt s2 p.1 = p.2
        rw [rowValuesAt, ← hok, hwrit p hp, List.map_map]
        have : (fun c : Cell => c.v) ∘ (fun v => (⟨v, none⟩ : Cell)) = id := by
          funext v; rfl
        rw [this, List.map_id]
      rw [hpfst] at hmap
      rw [hmap, hpsnd]
      have hperm : sorted.Perm recs := by
        rw [hsorted, jsStableSort_eq]
        exact List.mergeSort_perm recs _
      have := hperm.map (·.2)
      refine this.trans ?_
      rw [hrecs, List.map_map]
      exact List.Perm.refl _

/-- C6 witness: the frame facts instantiated on Scenario A's sheet. -/
theorem sortData_frame_witness :
    ([[⟨CellValue.str "Name", none⟩, ⟨CellValue.str "Revenue", none⟩],
      [⟨CellValue.str "Amy", none⟩, ⟨CellValue.num 300, none⟩],
      [⟨CellValue.str "Raj", none⟩, ⟨CellValue.num 100, none⟩],
      [⟨CellValue.str "Z", none⟩, ⟨CellValue.null, none⟩]] : Sheet).length
      = ([[⟨CellValue.str "Name", none⟩, ⟨CellValue.str "Revenue", none⟩],
          [⟨CellValue.str "Raj", none⟩, ⟨CellValue.num 100, none⟩],
          [⟨CellValue.str "Amy", none⟩, ⟨CellValue.num 300, none⟩],
          [⟨CellValue.str "Z", none⟩, ⟨CellValue.null, none⟩]] : Sheet).length
    ∧ getRow
        [[⟨CellValue.str "Name", none⟩, ⟨CellValue.str "Revenue", none⟩],
         [⟨CellValue.str "Amy", none⟩, ⟨CellValue.num 300, none⟩],
         [⟨CellValue.str "Raj", none⟩, ⟨CellValue.num 100, none⟩],
         [⟨CellValue.str "Z", none⟩, ⟨CellValue.null, none⟩]] 1
      = getRow
        [[⟨CellValue.str "Name", none⟩, ⟨CellValue.str "Revenue", none⟩],
         [⟨CellValue.str "Raj", none⟩, ⟨CellValue.num 100, none⟩],
         [⟨CellValue.str "Amy", none⟩, ⟨CellValue.num 300, none⟩],
         [⟨CellValue.str "Z", none⟩, ⟨CellValue.null, none⟩]] 1 := by
  have h := sortData_frame
    [[⟨CellValue.str "Name", none⟩, ⟨CellValue.str "Revenue", none⟩],
     [⟨CellValue.str "Raj", none⟩, ⟨CellValue.num 100, none⟩],
     [⟨CellValue.str "Amy", none⟩, ⟨CellValue.num 300, none⟩],
     [⟨CellValue.str "Z", none⟩, ⟨CellValue.null, none⟩]]
    "Revenue" "desc"
    [[⟨CellValue.str "Name", none⟩, ⟨CellValue.str "Revenue", none⟩],
     [⟨CellValue.str "Amy", none⟩, ⟨CellValue.num 300, none⟩],
     [⟨CellValue.str "Raj", none⟩, ⟨CellValue.num 100, none⟩],
     [⟨CellValue.str "Z", none⟩, ⟨CellValue.null, none⟩]]
    2 1 (by decide) (by decide)
  exact ⟨h.1, h.2.1 1 (by omega) (by omega)⟩

/-! ### Comparator facts on uniformly-typed keys

On keys that are all null or numeric-like the `SORT_DATA` comparator is
transitive and total, so `Array.prototype.sort`'s output is fully
determined (stable, sorted) and the merge-sort model is faithful; the
idempotence theorem below lives in that fragment. -/

/-- Sortedness of `mergeSort` with transitivity/totality assumed only on
the elements of the list, transported through `attach`. -/
theorem pairwise_mergeSort_restricted {α : Type} (le : α → α → Bool)
    (P : α → Prop) (l : List α) (hl : ∀ x ∈ l, P x)
    (htrans : ∀ a b c, P a → P b → P c →
      le a b = true → le b c = true → le a c = true)
    (htotal : ∀ a b, P a → P b → (le a b || le b a) = true) :
    (l.mergeSort le).Pairwise (fun a b => le a b = true) := by
  have hmap := @List.map_mergeSort {x // x ∈ l} α
    (fun a b => le a.val b.val) le Subtype.val l.attach (fun a _ b _ => rfl)
  rw [List.attach_map_subtype_val] at hmap
  rw [← hmap, List.pairwise_map]
  exact List.sorted_mergeSort
    (fun a b c hab hbc =>
      htrans a.val b.val c.val (hl _ a.2) (hl _ b.2) (hl _ c.2) hab hbc)
    (fun a b => htotal a.val b.val (hl _ a.2) (hl _ b.2))
    l.attach

/-- A sort key on which the comparator behaves consistently: null or
numeric-like. -/
def goodKey (v : CellValue) : Bool := isNullV v || isNumKey v

theorem goodKey_num {v : CellValue} (hg : goodKey v = true)
    (hn : isNullV v = false) : isNumKey v = true := by
  simpa [goodKey, hn] using hg

theorem sortCmp_null_null {order : String} {u v : CellValue}
    (hu : isNullV u = true) (hv : isNullV v = true) : sortCmp order u v = 0 := by
  simp [sortCmp, hu, hv]

theorem sortCmp_null_def {order : String} {u v : CellValue}
    (hu : isNullV u = true) (hv : isNullV v = false) : sortCmp order u v = 1 := by
  simp [sortCmp, hu, hv]

theorem sortCmp_def_null {order : String} {u v : CellValue}
    (hu : isNullV u = false) (hv : isNullV v = true) : sortCmp order u v = -1 := by
  simp [sortCmp, hu, hv]

theorem sortCmp_num_num {order : String} {u v : CellValue}
    (hu : isNullV u = false) (hv : isNullV v = false)
    (hnu : isNumKey u = true) (hnv : isNumKey v = true) :
    sortCmp order u v
      = if order = "desc" then
          subQ ((jsNumberOf v).getD 0) ((jsNumberOf u).getD 0)
        else subQ ((jsNumberOf u).getD 0) ((jsNumberOf v).getD 0) := by
  simp [sortCmp, hu, hv, hnu, hnv]

theorem sortCmp_le_trans (order : String) (u v w : CellValue)
    (hu : goodKey u = true) (hv : goodKey v = true) (hw : goodKey w = true)
    (huv : sortCmp order u v ≤ 0) (hvw : sortCmp order v w ≤ 0) :
    sortCmp order u w ≤ 0 := by
  by_cases hun : isNullV u = true <;> by_cases hvn : isNullV v = true <;>
    by_cases hwn : isNullV w = true
  · rw [sortCmp_null_null hun hwn]
  · rw [sortCmp_null_def hvn (by simpa using hwn)] at hvw
    norm_num at hvw
  · rw [sortCmp_null_null hun hwn]
  · rw [sortCmp_null_def hun (by simpa using hvn)] at huv
    norm_num at huv
  · rw [sortCmp_def_null (by simpa using hun) hwn]
    norm_num
  · rw [sortCmp_null_def hvn (by simpa using hwn)] at hvw
    norm_num at hvw
  · rw [sortCmp_def_null (by simpa using hun) hwn]
    norm_num
  · have hun' : isNullV u = false := by simpa using hun
    have hvn' : isNullV v = false := by simpa using hvn
    have hwn' : isNullV w = false := by simpa using hwn
    rw [sortCmp_num_num hun' hvn' (goodKey_num hu hun') (goodKey_num hv hvn')]
      at huv
    rw [sortCmp_num_num hvn' hwn' (goodKey_num hv hvn') (goodKey_num hw hwn')]
      at hvw
    rw [sortCmp_num_num hun' hwn' (goodKey_num hu hun') (goodKey_num hw hwn')]
    by_cases hord : order = "desc"
    · rw [if_pos hord] at *
      rw [subQ_eq] at *
      linarith
    · rw [if_neg hord] at *
      rw [subQ_eq] at *
      linarith

theorem sortCmp_le_total (order : String) (u v : CellValue)
    (hu : goodKey u = true) (hv : goodKey v = true) :
    (decide (sortCmp order u v ≤ 0) || decide (sortCmp order v u ≤ 0)) = true := by
  by_cases hun : isNullV u = true <;> by_cases hvn : isNullV v = true
  · rw [sortCmp_null_null hun hvn]
    norm_num
  · rw [sortCmp_def_null (by simpa using hvn) hun]
    norm_num
  · rw [sortCmp_def_null (by simpa using hun) hvn]
    norm_num
  · have hun' : isNullV u = false := by simpa using hun
    have hvn' : isNullV v = false := by simpa using hvn
    rw [sortCmp_num_num hun' hvn' (goodKey_num hu hun') (goodKey_num hv hvn'),
      sortCmp_num_num hvn' hun' (goodKey_num hv hvn') (goodKey_num hu hun')]
    by_cases hord : order = "desc"
    · rw [if_pos hord, if_pos hord, subQ_eq, subQ_eq]
      rw [Bool.or_eq_true, decide_eq_true_eq, decide_eq_true_eq]
      by_cases hle : (jsNumberOf v).getD 0 ≤ (jsNumberOf u).getD 0
      · left; linarith
      · right; linarith [lt_of_not_le hle]
    · rw [if_neg hord, if_neg hord, subQ_eq, subQ_eq]
      rw [Bool.or_eq_true, decide_eq_true_eq, decide_eq_true_eq]
      by_cases hle : (jsNumberOf u).getD 0 ≤ (jsNumberOf v).getD 0
      · left; linarith
      · right; linarith [lt_of_not_le hle]

/-- The scan of `getColumnIndex` only depends on the rows up to the one
where it finds the header. -/
theorem gciAux_congr_prefix (la : List SheetRow) :
    ∀ (lb : List SheetRow) (rn : Nat) (name : String) (sd ci fr : Nat),
      gciAux la rn name sd = some (ci, fr) →
      (∀ k, rn + k ≤ fr → la[k]? = lb[k]?) →
      gciAux lb rn name sd = some (ci, fr) := by
  induction la with
  | nil => intro lb rn name sd ci fr ha _; simp [gciAux] at ha
  | cons row rest ih =>
      intro lb rn name sd ci fr ha hpre
      rw [gciAux] at ha
      by_cases hd : rn > sd
      · rw [if_pos hd] at ha
        exact absurd ha (by simp)
      · rw [if_neg hd] at ha
        have hfr : rn ≤ fr := by
          cases hf : findCellIdx row name with
          | some c =>
              rw [hf] at ha
              simp only [Option.some.injEq, Prod.mk.injEq] at ha
              omega
          | none =>
              rw [hf] at ha
              have := (gciAux_pos ha).2
              omega
        have h0 := hpre 0 (by omega)
        simp only [List.getElem?_cons_zero] at h0
        cases lb with
        | nil => simp at h0
        | cons rowb restb =>
            simp only [List.getElem?_cons_zero, Option.some.injEq] at h0
            subst h0
            rw [gciAux, if_neg hd]
            cases hf : findCellIdx row name with
            | some c =>
                rw [hf] at ha
                exact ha
            | none =>
                rw [hf] at ha
                exact ih restb (rn + 1) name sd ci fr ha
                  (fun k hk => by
                    have := hpre (k + 1) (by omega)
                    simpa using this)

/-- Two lists of the same length with equal `getD` at `i` agree at `i`. -/
theorem getElem?_congr_of_getD {α : Type} (l1 l2 : List α) (d : α) (i : Nat)
    (hlen : l1.length = l2.length) (hgd : l1.getD i d = l2.getD i d) :
    l1[i]? = l2[i]? := by
  by_cases hi : i < l1.length
  · rw [List.getD_eq_getElem?_getD, List.getD_eq_getElem?_getD,
      List.getElem?_eq_getElem hi, List.getElem?_eq_getElem (by omega)] at hgd
    rw [List.getElem?_eq_getElem hi, List.getElem?_eq_getElem (by omega)]
    simpa using hgd
  · rw [List.getElem?_eq_none (by omega), List.getElem?_eq_none (by omega)]

theorem set_getD_self {α : Type} (l : List α) (i : Nat) (d : α)
    (h : i < l.length) : l.set i (l.getD i d) = l := by
  apply List.ext_getElem?
  intro j
  by_cases hj : i = j
  · subst hj
    rw [List.getElem?_set_self h, List.getElem?_eq_getElem h,
      List.getD_eq_getElem?_getD, List.getElem?_eq_getElem h]
    rfl
  · rw [List.getElem?_set_ne hj]

/-- Writing back rows that already hold exactly the written contents is the
identity. -/
theorem writeBack_id (pairs : List (Nat × List CellValue)) :
    ∀ s : Sheet, (∀ p ∈ pairs, p.1 < s.length ∧
        s.getD p.1 [] = p.2.map (fun v => ⟨v, none⟩)) →
      pairs.foldl (fun acc p => setRowVals acc p.1 p.2) s = s := by
  induction pairs with
  | nil => intro s _; rfl
  | cons p ps ih =>
      intro s h
      have hp := h p (by simp)
      have hset : setRowVals s p.1 p.2 = s := by
        rw [setRowVals, ← hp.2]
        exact set_getD_self s p.1 [] hp.1
      rw [List.foldl_cons, hset]
      exact ih s (fun q hq => h q (by simp [hq]))

theorem anyMap {α β : Type} (f : α → β) (l : List α) (p : β → Bool) :
    (l.map f).any p = l.any (fun a => p (f a)) := by
  induction l with
  | nil => rfl
  | cons a t ih =>
      rw [List.map_cons, List.any_cons, List.any_cons, ih]

theorem nonEmptyRow_map_mk (vals : List CellValue) :
    nonEmptyRow (vals.map (fun v => (⟨v, none⟩ : Cell)))
      = vals.any (fun v => !isNullV v) := by
  rw [nonEmptyRow, anyMap]

theorem any_rowValuesAt (s : Sheet) (j : Nat) :
    (rowValuesAt s j).any (fun v => !isNullV v) = nonEmptyRow (s.getD j []) := by
  rw [rowValuesAt, anyMap, nonEmptyRow]

/-- `SORT_DATA` is idempotent on the consistent-comparator fragment: when
every participating sort key is null or numeric-like the comparator is
transitive and total, so the written-back sheet is already sorted and a
second `SORT_DATA` on the same column and order returns it unchanged. -/
theorem sortData_idempotent_on_uniform_keys (s s1 : Sheet)
    (column order : String) (ci hr : Nat)
    (hres : getColumnIndex s column = some (ci, hr))
    (hok : sortData s column order = Except.ok s1)
    (hkeys : ∀ i ∈ collectIdxs s hr,
      goodKey ((rowValuesAt s i).getD (ci - 1) CellValue.null) = true) :
    sortData s1 column order = Except.ok s1 := by
  simp only [sortData, hres] at hok
  by_cases hemp : ((collectIdxs s hr).map
      (fun i => (i, rowValuesAt s i))).isEmpty = true
  · rw [if_pos hemp] at hok
    simp only [Except.ok.injEq] at hok
    subst hok
    simp only [sortData, hres, if_pos hemp]
  · rw [if_neg hemp] at hok
    simp only [Except.ok.injEq] at hok
    set idxs := collectIdxs s hr with hidxs
    set recs := idxs.map (fun i => (i, rowValuesAt s i)) with hrecs
    set sorted := jsStableSort (recLE ci order) recs with hsorted
    have htgt : jsStableSort (fun a b => decide (a ≤ b)) (recs.map (·.1))
        = idxs := by
      rw [hrecs, hidxs]
      exact sortTargets_eq s hr
    rw [htgt] at hok
    set pairs := idxs.zip (sorted.map (·.2)) with hpairs
    have hsortlen : sorted.length = idxs.length := by
      rw [hsorted, jsStableSort_eq, List.length_mergeSort, hrecs,
        List.length_map]
    have hpfst : pairs.map Prod.fst = idxs := by
      rw [hpairs, List.map_fst_zip]
      rw [List.length_map, hsortlen]
    have hmemfst : ∀ p ∈ pairs, p.1 ∈ idxs := by
      intro p hp
      rw [← hpfst]
      exact List.mem_map_of_mem Prod.fst hp
    have hmemidx : ∀ i ∈ idxs,
        i < s.length ∧ hr ≤ i ∧ nonEmptyRow (s.getD i []) = true := by
      intro i hi
      rw [hidxs] at hi
      exact collectIdxs_mem hi
    have hlen1 : s1.length = s.length := by
      rw [← hok, writeBack_length]
    have huntouched : ∀ i, i ∉ idxs → s1.getD i [] = s.getD i [] := by
      intro i hi
      rw [← hok]
      exact writeBack_untouched pairs s i
        (fun p hp hcon => hi (by rw [← hcon]; exact hmemfst p hp))
    have hwrit1 : ∀ p ∈ pairs, s1.getD p.1 [] = p.2.map (fun v => ⟨v, none⟩) := by
      intro p hp
      rw [← hok]
      exact writeBack_written pairs s
        (by rw [hpfst, hidxs]; exact collectIdxs_nodup s hr)
        (fun q hq => (hmemidx q.1 (hmemfst q hq)).1) p hp
    have hvals : ∀ k, (hk : k < idxs.length) →
        rowValuesAt s1 (idxs[k]) = (sorted[k]).2 := by
      intro k hk
      have hklt : k < pairs.length := by
        rw [hpairs, List.length_zip, List.length_map]
        omega
      have hpk : pairs[k] = (idxs[k], (sorted[k]).2) := by
        have hq : pairs[k]? = some (idxs[k], (sorted[k]).2) := by
          rw [hpairs]
          rw [List.getElem?_eq_getElem
            (by rw [List.length_zip, List.length_map]; omega)]
          rw [List.getElem_zip, List.getElem_map]
        rw [List.getElem?_eq_getElem hklt] at hq
        exact Option.some.inj hq
      have h1 := hwrit1 (pairs[k]) (List.getElem_mem hklt)
      rw [hpk] at h1
      have h2 : s1.getD (idxs[k]) []
          = ((sorted[k]).2).map (fun v => ⟨v, none⟩) := h1
      rw [rowValuesAt, h2, List.map_map]
      have hid : ((fun c : Cell => c.v) ∘ fun v => (⟨v, none⟩ : Cell)) = id := by
        funext v; rfl
      rw [hid, List.map_id]
    have hsndmap : idxs.map (fun i => rowValuesAt s1 i) = sorted.map (·.2) := by
      apply List.ext_getElem
      · rw [List.length_map, List.length_map]
        omega
      · intro k h1 h2
        rw [List.getElem_map, List.getElem_map]
        exact hvals k (by rw [List.length_map] at h1; exact h1)
    have hres1 : getColumnIndex s1 column = some (ci, hr) := by
      rw [getColumnIndex] at hres ⊢
      refine gciAux_congr_prefix s s1 1 column 20 ci hr hres ?_
      intro k hk
      have hnot : k ∉ idxs := by
        intro hmem
        have := (hmemidx k hmem).2.1
        omega
      exact getElem?_congr_of_getD s s1 [] k hlen1.symm
        (huntouched k hnot).symm
    have hpsnd : pairs.map Prod.snd = sorted.map (·.2) := by
      rw [hpairs, List.map_snd_zip]
      rw [List.length_map, hsortlen]
    have hnonempty1 : ∀ i ∈ idxs, nonEmptyRow (s1.getD i []) = true := by
      intro i hi
      obtain ⟨p, hp, hp1⟩ : ∃ p ∈ pairs, p.1 = i := by
        rw [← hpfst] at hi
        obtain ⟨p, hp, he⟩ := List.mem_map.mp hi
        exact ⟨p, hp, he⟩
      have h1 := hwrit1 p hp
      rw [hp1] at h1
      have hp2 : p.2 ∈ sorted.map (·.2) := by
        rw [← hpsnd]
        exact List.mem_map_of_mem Prod.snd hp
      obtain ⟨r, hrs, hre⟩ := List.mem_map.mp hp2
      have hrr : r ∈ recs := by
        have hperm : sorted.Perm recs := by
          rw [hsorted, jsStableSort_eq]
          exact List.mergeSort_perm recs _
        exact hperm.mem_iff.mp hrs
      rw [hrecs] at hrr
      obtain ⟨j, hj, hje⟩ := List.mem_map.mp hrr
      rw [h1, nonEmptyRow_map_mk, ← hre, ← hje]
      show (rowValuesAt s j).any (fun v => !isNullV v) = true
      rw [any_rowValuesAt]
      exact (hmemidx j hj).2.2
    have hcoll1 : collectIdxs s1 hr = collectIdxs s hr := by
      rw [collectIdxs, collectIdxs, hlen1]
      apply List.filter_congr
      intro i hi
      by_cases hmem : i ∈ idxs
      · rw [hnonempty1 i hmem, (hmemidx i hmem).2.2]
      · rw [huntouched i hmem]
    have hPrecs : ∀ r ∈ recs, goodKey (recKey ci r) = true := by
      intro r hrr
      rw [hrecs] at hrr
      obtain ⟨j, hj, he⟩ := List.mem_map.mp hrr
      rw [← he]
      exact hkeys j hj
    have hsortedPW : sorted.Pairwise (fun a b => recLE ci order a b = true) := by
      rw [hsorted, jsStableSort_eq]
      apply pairwise_mergeSort_restricted (recLE ci order)
        (fun r => goodKey (recKey ci r) = true) recs hPrecs
      · intro a b c ha hb hc hab hbc
        simp only [recLE, decide_eq_true_eq] at hab hbc ⊢
        exact sortCmp_le_trans order _ _ _ ha hb hc hab hbc
      · intro a b ha hb
        simp only [recLE]
        exact sortCmp_le_total order _ _ ha hb
    have hPW1 : (idxs.map (fun i => (i, rowValuesAt s1 i))).Pairwise
        (fun a b => recLE ci order a b = true) := by
      have h1 : (sorted.map (·.2)).Pairwise (fun u v =>
          decide (sortCmp order (u.getD (ci - 1) CellValue.null)
            (v.getD (ci - 1) CellValue.null) ≤ 0) = true) := by
        rw [List.pairwise_map]
        exact hsortedPW.imp (fun h => by simpa [recLE, recKey] using h)
      rw [← hsndmap, List.pairwise_map] at h1
      rw [List.pairwise_map]
      exact h1.imp (fun h => by simpa [recLE, recKey] using h)
    have hne : idxs ≠ [] := by
      intro h
      apply hemp
      rw [hrecs, h]
      rfl
    have hemp1 : ((idxs.map (fun i => (i, rowValuesAt s1 i))).isEmpty) = false := by
      cases hic : idxs with
      | nil => exact absurd hic hne
      | cons a t => rfl
    have htgt1 : jsStableSort (fun a b => decide (a ≤ b))
        ((idxs.map (fun i => (i, rowValuesAt s1 i))).map (·.1)) = idxs := by
      have h1 := sortTargets_eq s1 hr
      rw [hcoll1, ← hidxs] at h1
      exact h1
    have hsort1 : jsStableSort (recLE ci order)
        (idxs.map (fun i => (i, rowValuesAt s1 i)))
        = idxs.map (fun i => (i, rowValuesAt s1 i)) := by
      rw [jsStableSort_eq]
      exact List.mergeSort_of_sorted hPW1
    have hzipmap : idxs.zip ((idxs.map (fun i => (i, rowValuesAt s1 i))).map (·.2))
        = idxs.map (fun i => (i, rowValuesAt s1 i)) := by
      apply List.ext_getElem
      · simp only [List.length_zip, List.length_map]
        omega
      · intro k h1 h2
        simp [List.getElem_zip]
    have hidhyp : ∀ p ∈ idxs.map (fun i => (i, rowValuesAt s1 i)),
        p.1 < s1.length ∧ s1.getD p.1 [] = p.2.map (fun v => ⟨v, none⟩) := by
      intro p hp
      obtain ⟨j, hj, he⟩ := List.mem_map.mp hp
      subst he
      refine ⟨by rw [hlen1]; exact (hmemidx j hj).1, ?_⟩
      obtain ⟨q, hq, hq1⟩ : ∃ q ∈ pairs, q.1 = j := by
        rw [← hpfst] at hj
        obtain ⟨q, hq, he2⟩ := List.mem_map.mp hj
        exact ⟨q, hq, he2⟩
      have h1 := hwrit1 q hq
      rw [hq1] at h1
      have hrv : rowValuesAt s1 j = q.2 := by
        rw [rowValuesAt, h1, List.map_map]
        have hid : ((fun c : Cell => c.v) ∘ fun v => (⟨v, none⟩ : Cell)) = id := by
          funext v; rfl
        rw [hid, List.map_id]
      show s1.getD j [] = (rowValuesAt s1 j).map (fun v => ⟨v, none⟩)
      rw [hrv, ← h1]
    simp only [sortData, hres1]
    rw [hcoll1, ← hidxs]
    rw [if_neg (by simp [hemp1])]
    rw [htgt1, hsort1, hzipmap,
      writeBack_id (idxs.map (fun i => (i, rowValuesAt s1 i))) s1 hidhyp]

/-- Idempotence instantiated: re-sorting Scenario A's descending-sorted
sheet (all keys numeric or null) leaves it unchanged. -/
theorem sortData_idempotent_witness :
    sortData
      [[⟨CellValue.str "Name", none⟩, ⟨CellValue.str "Revenue", none⟩],
       [⟨CellValue.str "Amy", none⟩, ⟨CellValue.num 300, none⟩],
       [⟨CellValue.str "Raj", none⟩, ⟨CellValue.num 100, none⟩],
       [⟨CellValue.str "Z", none⟩, ⟨CellValue.null, none⟩]] "Revenue" "desc"
      = Except.ok
      [[⟨CellValue.str "Name", none⟩, ⟨CellValue.str "Revenue", none⟩],
       [⟨CellValue.str "Amy", none⟩, ⟨CellValue.num 300, none⟩],
       [⟨CellValue.str "Raj", none⟩, ⟨CellValue.num 100, none⟩],
       [⟨CellValue.str "Z", none⟩, ⟨CellValue.null, none⟩]] :=
  sortData_idempotent_on_uniform_keys
    [[⟨CellValue.str "Name", none⟩, ⟨CellValue.str "Revenue", none⟩],
     [⟨CellValue.str "Raj", none⟩, ⟨CellValue.num 100, none⟩],
     [⟨CellValue.str "Amy", none⟩, ⟨CellValue.num 300, none⟩],
     [⟨CellValue.str "Z", none⟩, ⟨CellValue.null, none⟩]]
    [[⟨CellValue.str "Name", none⟩, ⟨CellValue.str "Revenue", none⟩],
     [⟨CellValue.str "Amy", none⟩, ⟨CellValue.num 300, none⟩],
     [⟨CellValue.str "Raj", none⟩, ⟨CellValue.num 100, none⟩],
     [⟨CellValue.str "Z", none⟩, ⟨CellValue.null, none⟩]]
    "Revenue" "desc" 2 1 (by decide) (by decide) (by decide)

/-- Behaviour of the batch loop: one record per executed step carrying the
step's action name and index; every record before the last succeeds; a
failing record is final, keeps its error message, and the loop's outcome is
exactly the outcome of running only the preceding steps; a fully successful
record list covers the whole action list. -/
theorem runBatch_spec (acts : List ExcelAction) :
    ∀ (store : Store) (path : String) (i : Nat),
      (runBatch store path acts i).2.2.length ≤ acts.length
      ∧ (∀ k, k < (runBatch store path acts i).2.2.length →
          ((runBatch store path acts i).2.2[k]?.map (fun r => r.action)
              = acts[k]?.map actionName
            ∧ (runBatch store path acts i).2.2[k]?.map (fun r => r.index)
              = some (i + k)))
      ∧ (∀ k, k + 1 < (runBatch store path acts i).2.2.length →
          (runBatch store path acts i).2.2[k]?.map (fun r => r.success)
            = some true)
      ∧ (∀ k, (runBatch store path acts i).2.2[k]?.map (fun r => r.success)
            = some false →
          (k + 1 = (runBatch store path acts i).2.2.length
            ∧ ((runBatch store path acts i).2.2[k]?.bind
                (fun r => r.message)).isSome = true
            ∧ runBatch store path (acts.take k) i
              = ((runBatch store path acts i).1,
                 (runBatch store path acts i).2.1,
                 (runBatch store path acts i).2.2.take k)))
      ∧ ((∀ r ∈ (runBatch store path acts i).2.2, r.success = true) →
          (runBatch store path acts i).2.2.length = acts.length) := by
  induction acts with
  | nil =>
      intro store path i
      refine ⟨by simp [runBatch], ?_, ?_, ?_, by simp [runBatch]⟩
      · intro k hk
        simp [runBatch] at hk
      · intro k hk
        simp [runBatch] at hk
      · intro k hk
        simp [runBatch] at hk
  | cons a rest ih =>
      intro store path i
      cases h : processExcelAction store path a i with
      | error e =>
          have hrb : runBatch store path (a :: rest) i
              = (store, path, [⟨i, actionName a, false, some e, none⟩]) := by
            simp only [runBatch, h]
          refine ⟨?_, ?_, ?_, ?_, ?_⟩
          · rw [hrb]
            simp
          · intro k hk
            rw [hrb] at hk
            simp only [List.length_cons, List.length_nil] at hk
            have hk0 : k = 0 := by omega
            subst hk0
            rw [hrb]
            simp
          · intro k hk
            rw [hrb] at hk
            simp only [List.length_cons, List.length_nil] at hk
            omega
          · intro k hk
            rw [hrb] at hk
            cases k with
            | succ k' => simp at hk
            | zero =>
                refine ⟨by rw [hrb]; rfl, ?_, ?_⟩
                · rw [hrb]
                  rfl
                · rw [hrb]
                  simp [runBatch]
          · intro hall
            rw [hrb] at hall
            have h1 := hall ⟨i, actionName a, false, some e, none⟩ (by simp)
            simp at h1
      | ok pr =>
          obtain ⟨store2, path2⟩ := pr
          have hrb : runBatch store path (a :: rest) i
              = ((runBatch store2 path2 rest (i + 1)).1,
                 (runBatch store2 path2 rest (i + 1)).2.1,
                 (⟨i, actionName a, true, none, some path2⟩ : StepResult)
                   :: (runBatch store2 path2 rest (i + 1)).2.2) := by
            simp only [runBatch, h]
          obtain ⟨ih1, ih2, ih3, ih4, ih5⟩ := ih store2 path2 (i + 1)
          refine ⟨?_, ?_, ?_, ?_, ?_⟩
          · rw [hrb]
            simp only [List.length_cons]
            omega
          · intro k hk
            cases k with
            | zero =>
                rw [hrb]
                simp
            | succ k' =>
                rw [hrb] at hk
                simp only [List.length_cons] at hk
                have h2 := ih2 k' (by omega)
                rw [hrb]
                simp only [List.getElem?_cons_succ]
                refine ⟨h2.1, ?_⟩
                rw [h2.2]
                congr 1
                omega
          · intro k hk
            cases k with
            | zero =>
                rw [hrb]
                simp
            | succ k' =>
                rw [hrb] at hk
                simp only [List.length_cons] at hk
                rw [hrb]
                simp only [List.getElem?_cons_succ]
                exact ih3 k' (by omega)
          · intro k hk
            cases k with
            | zero =>
                rw [hrb] at hk
                simp at hk
            | succ k' =>
                rw [hrb] at hk
                simp only [List.getElem?_cons_succ] at hk
                obtain ⟨h41, h42, h43⟩ := ih4 k' hk
                refine ⟨?_, ?_, ?_⟩
                · rw [hrb]
                  simp only [List.length_cons]
                  omega
                · rw [hrb]
                  simp only [List.getElem?_cons_succ]
                  exact h42
                · rw [List.take_succ_cons]
                  have hrb2 : runBatch store path (a :: rest.take k') i
                      = ((runBatch store2 path2 (rest.take k') (i + 1)).1,
                         (runBatch store2 path2 (rest.take k') (i + 1)).2.1,
                         (⟨i, actionName a, true, none, some path2⟩ : StepResult)
                           :: (runBatch store2 path2 (rest.take k') (i + 1)).2.2) := by
                    simp only [runBatch, h]
                  rw [hrb2, h43, hrb]
                  simp [List.take_succ_cons]
          · intro hall
            rw [hrb] at hall
            have h5 := ih5 (fun r hr => hall r (List.mem_cons_of_mem _ hr))
            rw [hrb]
            simp only [List.length_cons, List.length_cons, h5]

/-- C2: the batch executor commits snapshots step by step.  Each executed
step appends one record carrying its action name and step index; every
record before the last succeeds; a failing record is the final one (no
later step runs), carries an error message, forces `success = false`, and
leaves the persisted store and the latest snapshot path exactly as after
running only the preceding steps — the failing step commits nothing; and
`success = true` requires every action of the batch to have run and
succeeded. -/
theorem executeAICommand_prefix_commit (store : Store) (path : String)
    (acts : List ExcelAction) :
    ((executeAICommand store path acts).results.length ≤ acts.length)
    ∧ (∀ k, k < (executeAICommand store path acts).results.length →
        ((executeAICommand store path acts).results[k]?.map (fun r => r.action)
            = acts[k]?.map actionName
          ∧ (executeAICommand store path acts).results[k]?.map (fun r => r.index)
            = some k))
    ∧ (∀ k, k + 1 < (executeAICommand store path acts).results.length →
        (executeAICommand store path acts).results[k]?.map (fun r => r.success)
          = some true)
    ∧ (∀ k, (executeAICommand store path acts).results[k]?.map (fun r => r.success)
          = some false →
        (k + 1 = (executeAICommand store path acts).results.length
          ∧ ((executeAICommand store path acts).results[k]?.bind
              (fun r => r.message)).isSome = true
          ∧ (executeAICommand store path acts).success = false
          ∧ (executeAICommand store path acts).store
            = (executeAICommand store path (acts.take k)).store
          ∧ (executeAICommand store path acts).filePath
            = (executeAICommand store path (acts.take k)).filePath))
    ∧ ((executeAICommand store path acts).success = true →
        ((executeAICommand store path acts).results.length = acts.length
          ∧ ∀ r ∈ (executeAICommand store path acts).results,
              r.success = true)) := by
  obtain ⟨h1, h2, h3, h4, h5⟩ := runBatch_spec acts store path 0
  have hres : (executeAICommand store path acts).results
      = (runBatch store path acts 0).2.2 := rfl
  have hsucc : (executeAICommand store path acts).success
      = (runBatch store path acts 0).2.2.all (fun r => r.success) := rfl
  refine ⟨?_, ?_, ?_, ?_, ?_⟩
  · rw [hres]
    exact h1
  · intro k hk
    rw [hres] at hk ⊢
    simpa using h2 k hk
  · intro k hk
    rw [hres] at hk ⊢
    exact h3 k hk
  · intro k hk
    rw [hres] at hk
    obtain ⟨h41, h42, h43⟩ := h4 k hk
    obtain ⟨r, hrk, hrs⟩ : ∃ r, (runBatch store path acts 0).2.2[k]? = some r
        ∧ r.success = false := by
      cases hq : (runBatch store path acts 0).2.2[k]? with
      | none => rw [hq] at hk; simp at hk
      | some r =>
          rw [hq] at hk
          simp only [Option.map_some', Option.some.injEq] at hk
          exact ⟨r, rfl, hk⟩
    have hrmem : r ∈ (runBatch store path acts 0).2.2 := List.getElem?_mem hrk
    have hallfalse : (runBatch store path acts 0).2.2.all (fun r => r.success)
        = false := by
      cases hb : (runBatch store path acts 0).2.2.all (fun r => r.success) with
      | false => rfl
      | true =>
          have := List.all_eq_true.mp hb r hrmem
          rw [hrs] at this
          exact absurd this (by simp)
    have hany : (runBatch store path acts 0).2.2.any (fun r => r.success)
        = ((runBatch store path acts 0).2.2.take k).any (fun r => r.success) := by
      cases k with
      | zero =>
          obtain ⟨r1, hr1⟩ := List.length_eq_one.mp h41.symm
          rw [hr1]
          rw [hr1] at hrk
          simp only [List.getElem?_cons_zero, Option.some.injEq] at hrk
          subst hrk
          simp [hrs]
      | succ k' =>
          have h30 := h3 0 (by omega)
          cases hl : (runBatch store path acts 0).2.2 with
          | nil => rw [hl] at h30; simp at h30
          | cons x t =>
              rw [hl] at h30
              simp only [List.getElem?_cons_zero, Option.map_some',
                Option.some.injEq] at h30
              rw [List.take_succ_cons, List.any_cons, List.any_cons, h30]
              simp
    refine ⟨by rw [hres]; exact h41, by rw [hres]; exact h42, ?_, ?_, ?_⟩
    · rw [hsucc]
      exact hallfalse
    · show (runBatch store path acts 0).1
        = (runBatch store path (acts.take k) 0).1
      rw [h43]
    · show (if (runBatch store path acts 0).2.2.any (fun r => r.success)
          then some (runBatch store path acts 0).2.1 else none)
        = (if (runBatch store path (acts.take k) 0).2.2.any (fun r => r.success)
          then some (runBatch store path (acts.take k) 0).2.1 else none)
      rw [h43, hany]
  · intro hsuc
    rw [hsucc] at hsuc
    have hall : ∀ r ∈ (runBatch store path acts 0).2.2, r.success = true :=
      fun r hr => List.all_eq_true.mp hsuc r hr
    refine ⟨by rw [hres]; exact h5 hall, ?_⟩
    intro r hr
    rw [hres] at hr
    exact hall r hr

/-- C2 witness, Scenario E: batch `[ADD_COLUMN (ok), SORT_DATA on a missing
column (fails), SET_CELL (never runs)]` — two records, failure is final with
a message, overall success is false, and the committed state equals that of
running the first step alone. -/
theorem executeAICommand_prefix_commit_witness :
    1 + 1 = (executeAICommand
        [("f", [("Sheet1",
          [[⟨CellValue.str "Name", none⟩, ⟨CellValue.str "Revenue", none⟩],
           [⟨CellValue.str "Raj", none⟩, ⟨CellValue.num 100, none⟩]])])]
        "f" [ExcelAction.addColumnA "Double" "Revenue * 2",
             ExcelAction.sortDataA "Missing" "asc",
             ExcelAction.setCellA "A1" (CellValue.str "X")]).results.length
    ∧ ((executeAICommand
        [("f", [("Sheet1",
          [[⟨CellValue.str "Name", none⟩, ⟨CellValue.str "Revenue", none⟩],
           [⟨CellValue.str "Raj", none⟩, ⟨CellValue.num 100, none⟩]])])]
        "f" [ExcelAction.addColumnA "Double" "Revenue * 2",
             ExcelAction.sortDataA "Missing" "asc",
             ExcelAction.setCellA "A1" (CellValue.str "X")]).results[1]?.bind
          (fun r => r.message)).isSome = true
    ∧ (executeAICommand
        [("f", [("Sheet1",
          [[⟨CellValue.str "Name", none⟩, ⟨CellValue.str "Revenue", none⟩],
           [⟨CellValue.str "Raj", none⟩, ⟨CellValue.num 100, none⟩]])])]
        "f" [ExcelAction.addColumnA "Double" "Revenue * 2",
             ExcelAction.sortDataA "Missing" "asc",
             ExcelAction.setCellA "A1" (CellValue.str "X")]).success = false
    ∧ (executeAICommand
        [("f", [("Sheet1",
          [[⟨CellValue.str "Name", none⟩, ⟨CellValue.str "Revenue", none⟩],
           [⟨CellValue.str "Raj", none⟩, ⟨CellValue.num 100, none⟩]])])]
        "f" [ExcelAction.addColumnA "Double" "Revenue * 2",
             ExcelAction.sortDataA "Missing" "asc",
             ExcelAction.setCellA "A1" (CellValue.str "X")]).store
      = (executeAICommand
        [("f", [("Sheet1",
          [[⟨CellValue.str "Name", none⟩, ⟨CellValue.str "Revenue", none⟩],
           [⟨CellValue.str "Raj", none⟩, ⟨CellValue.num 100, none⟩]])])]
        "f" ([ExcelAction.addColumnA "Double" "Revenue * 2",
              ExcelAction.sortDataA "Missing" "asc",
              ExcelAction.setCellA "A1" (CellValue.str "X")].take 1)).store
    ∧ (executeAICommand
        [("f", [("Sheet1",
          [[⟨CellValue.str "Name", none⟩, ⟨CellValue.str "Revenue", none⟩],
           [⟨CellValue.str "Raj", none⟩, ⟨CellValue.num 100, none⟩]])])]
        "f" [ExcelAction.addColumnA "Double" "Revenue * 2",
             ExcelAction.sortDataA "Missing" "asc",
             ExcelAction.setCellA "A1" (CellValue.str "X")]).filePath
      = (executeAICommand
        [("f", [("Sheet1",
          [[⟨CellValue.str "Name", none⟩, ⟨CellValue.str "Revenue", none⟩],
           [⟨CellValue.str "Raj", none⟩, ⟨CellValue.num 100, none⟩]])])]
        "f" ([ExcelAction.addColumnA "Double" "Revenue * 2",
              ExcelAction.sortDataA "Missing" "asc",
              ExcelAction.setCellA "A1" (CellValue.str "X")].take 1)).filePath :=
  (executeAICommand_prefix_commit
    [("f", [("Sheet1",
      [[⟨CellValue.str "Name", none⟩, ⟨CellValue.str "Revenue", none⟩],
       [⟨CellValue.str "Raj", none⟩, ⟨CellValue.num 100, none⟩]])])]
    "f" [ExcelAction.addColumnA "Double" "Revenue * 2",
         ExcelAction.sortDataA "Missing" "asc",
         ExcelAction.setCellA "A1" (CellValue.str "X")]).2.2.2.1 1 (by decide)

/-- C9: loose matching is tolerant of type coercion — the text "5000"
loose-matches the number 5000, `FIND_AND_REPLACE` with `findValue "5000"`
replaces a cell holding the number 5000, and the loose-match primitive is
native `==` or trimmed case-insensitive text equality of two truthy
values. -/
theorem findAndReplace_loose_coercion :
    (looseMatch (CellValue.num 5000) (CellValue.str "5000") = true)
    ∧ (findAndReplace [[⟨CellValue.str "Amount", none⟩], [⟨CellValue.num 5000, none⟩]]
          (CellValue.str "5000") (CellValue.str "replaced") none
        = Except.ok [[⟨CellValue.str "Amount", none⟩], [⟨CellValue.str "replaced", none⟩]])
    ∧ (∀ a b, looseMatch a b
        = (jsEq a b || (jsTruthy a && jsTruthy b &&
            decide (strLower (strTrim (jsToString a))
              = strLower (strTrim (jsToString b)))))) :=
  ⟨by decide, by decide, fun a b => rfl⟩

end Sheetpilot
